import Mathlib

/-!
# MongoShake full-sync coordinator: shallow embedding

Embedding of `collector/coordinator/full.go` and
`collector/coordinator/extra_job.go`.

Conventions.
* A Go `error` is `Option GoError`; `none` is `nil`.
* A Go call returning `(value, error)` is an `Except GoError value`.
* A Go map with string keys is `GoMap`: `none` is the nil map, `some l` holds
  the entries. Ranging over a map visits the entries of `l` in list order, so a
  statement quantified over all lists covers every iteration order.
* Calls into packages outside the two files (`utils`, `sharding`, `docsyncer`)
  are answered by an oracle `Env`; every call is recorded as an `Event`.
* `int64` values are `Int`; the only `int64` operation in the code is `>`.
-/

set_option autoImplicit false

namespace MongoShake

/-! ## Data model -/

/-- A Go error value, identified with its message. -/
abbrev GoError := String

/-- Equality of `(value, error)` results is decidable. -/
instance instDecidableEqExcept {ε α : Type} [DecidableEq ε] [DecidableEq α] :
    DecidableEq (Except ε α)
  | .ok a, .ok b => if h : a = b then isTrue (by rw [h]) else isFalse (by simpa using h)
  | .error a, .error b => if h : a = b then isTrue (by rw [h]) else isFalse (by simpa using h)
  | .ok _, .error _ => isFalse (by simp)
  | .error _, .ok _ => isFalse (by simp)

/-- A Go map keyed by strings; `none` is the nil map. -/
abbrev GoMap (α : Type) := Option (List (String × α))

/-- Entries visited by `range m`; the nil map has none. -/
def GoMap.entries {α : Type} (m : GoMap α) : List (String × α) :=
  match m with
  | none => []
  | some l => l

/-- The two-result index expression `v, ok := m[k]`. -/
def GoMap.lookup {α : Type} (m : GoMap α) (k : String) : Option α :=
  match m with
  | none => none
  | some l => l.lookup k

/-- Constants of package `utils` used by the coordinator. Their values are not
    part of the two files, so they are a parameter of the embedding. -/
structure UtilsVars where
  VarIncrSyncMongoFetchMethodChangeStream : String
  VarSyncModeFull : String
  VarSpecialSourceDBFlagAliyunServerless : String
  VarFullSyncCreateIndexNone : String
  VarFullSyncCreateIndexBackground : String
  VarFullSyncCreateIndexForeground : String
  VarMongoConnectModePrimary : String
  VarMongoConnectModeSecondaryPreferred : String
  deriving DecidableEq

/-- The fields of `conf.Options` read by the two files. -/
structure Options where
  IncrSyncMongoFetchMethod : String
  MongoUrls : List String
  MongoCsUrl : String
  MongoSUrl : String
  MongoSslRootCaFile : String
  SyncMode : String
  SpecialSourceDBFlag : String
  TunnelAddress : List String
  TunnelMongoSslRootCaFile : String
  FullSyncExecutorDebug : Bool
  FullSyncExecutorFilterOrphanDocument : Bool
  FullSyncCreateIndex : String
  FullSyncReaderDocumentBatchSize : Int
  TransformNamespace : List String
  IncrSyncShardByObjectIdWhiteList : List String
  deriving DecidableEq

/-- Go `utils.MongoSource`: connection string and replica-set name. -/
structure MongoSource where
  URL : String
  ReplicaName : String
  deriving DecidableEq

/-- Go `utils.TimestampNode`. -/
structure TimestampNode where
  Oldest : Int
  Newest : Int
  deriving DecidableEq

/-- Go `math.MaxInt64`. -/
def MaxInt64 : Int := 9223372036854775807

/-- A value that fits an `int64`. -/
def inInt64 (x : Int) : Prop := -9223372036854775808 ≤ x ∧ x ≤ MaxInt64

instance (x : Int) : Decidable (inInt64 x) := by
  unfold inInt64; exact inferInstance

/-- One chunk range of a collection, owned by one shard. -/
structure ChunkRange where
  lower : Int
  upper : Int
  deriving DecidableEq

/-- Go `sharding.DBChunkMap`: namespace to the chunk ranges of one shard. -/
abbrev DBChunkMap := GoMap (List ChunkRange)

instance instDecidableEqDBChunkMap : DecidableEq DBChunkMap :=
  inferInstanceAs (DecidableEq (Option (List (String × List ChunkRange))))

/-- Go `sharding.ShardingChunkMap`: shard (replica-set) name to its `DBChunkMap`. -/
abbrev ShardingChunkMap := GoMap DBChunkMap

instance instDecidableEqShardingChunkMap : DecidableEq ShardingChunkMap :=
  inferInstanceAs (DecidableEq (Option (List (String × DBChunkMap))))

/-- Go `filter.OrphanFilter` as built by `filter.NewOrphanFilter`. -/
structure OrphanFilter where
  replset : String
  chunkMap : DBChunkMap
  deriving DecidableEq

/-- Go `filter.NewOrphanFilter(replset, chunkMap)`. -/
def NewOrphanFilter (replset : String) (chunkMap : DBChunkMap) : OrphanFilter :=
  { replset := replset, chunkMap := chunkMap }

/-- The set of namespaces returned by `utils.GetAllNamespace`. -/
abbrev NsSet := List String

/-- The index map returned by `fetchIndexes`: namespace to index documents. -/
abbrev IndexMap := GoMap (List String)

/-- Go `*utils.MongoCommunityConn`, identified by the address it was opened on. -/
structure MongoCommunityConn where
  url : String
  deriving DecidableEq

/-- Go `ReplicationCoordinator`; `MongoS = none` is the nil pointer. -/
structure ReplicationCoordinator where
  MongoD : List MongoSource
  MongoS : Option MongoSource
  RealSourceFullSync : List MongoSource
  RealSourceIncrSync : List MongoSource
  deriving DecidableEq

/-- Answers of the packages the coordinator calls into. -/
structure Env where
  GetBalancerStatusByUrl : String → Except GoError Bool
  GetChunkMapByUrl : String → Except GoError ShardingChunkMap
  GetAllNamespace : List MongoSource → String → Except GoError NsSet
  GetAllTimestamp : List MongoSource → String → Except GoError (GoMap TimestampNode)
  NewMongoCommunityConn : String → String → String → Except GoError MongoCommunityConn
  StartDropDestCollection : NsSet → Option MongoCommunityConn → Option GoError
  IsShardingToSharding : Bool → Option MongoCommunityConn → Bool
  StartNamespaceSpecSyncForSharding : String → Option MongoCommunityConn → Option GoError
  fetchIndexes : List MongoSource → Except GoError IndexMap
  StartIndexSync : IndexMap → String → Bool → Option GoError
  dbSyncerStart : Nat → MongoSource → Option GoError
  Checkpoint : GoMap TimestampNode → Option GoError

/-- Calls made by the coordinator, in the order they are recorded. -/
inductive Event where
  | GetBalancerStatusByUrl (url : String)
  | GetChunkMapByUrl (url : String)
  | GetAllNamespace (sources : List MongoSource)
  | GetAllTimestamp (sources : List MongoSource)
  | NewMongoCommunityConn (url : String)
  | ConnClose (url : String)
  | StartDropDestCollection (nsSet : NsSet)
  | IsShardingToSharding (fromIsSharding : Bool)
  | StartNamespaceSpecSyncForSharding (connString : String)
  | fetchIndexes (sources : List MongoSource)
  | StartIndexSync (background : Bool)
  | StartQoS (batch : Int)
  | NewDBSyncer (id : Nat) (url replicaName toUrl : String)
      (orphanFilter : Option OrphanFilter) (fromIsSharding : Bool)
  | DBSyncerStart (id : Nat) (result : Option GoError)
  | DBSyncerClose (id : Nat)
  | FullSyncHttpListen
  | Checkpoint (ckptMap : GoMap TimestampNode)
  deriving DecidableEq

/-- How a Go function ends: normal return of `nil`, return of an error, or a
    run-time panic. -/
inductive Result where
  | ok
  | error (e : GoError)
  | panic
  deriving DecidableEq

/-- Prefix a recorded run with the events that happened before it. -/
def after (evs : List Event) (r : List Event × Result) : List Event × Result :=
  (evs ++ r.1, r.2)

/-! ## full.go -/

/-- Go `fetchChunkMap` (full.go 20-42): events, then `(ShardingChunkMap, error)`. -/
def fetchChunkMap (v : UtilsVars) (env : Env) (conf : Options) (isSharding : Bool) :
    List Event × Except GoError ShardingChunkMap :=
  if !isSharding ||
      conf.IncrSyncMongoFetchMethod == v.VarIncrSyncMongoFetchMethodChangeStream then
    ([], .ok none)
  else
    match env.GetBalancerStatusByUrl conf.MongoCsUrl with
    | .error err =>
      ([.GetBalancerStatusByUrl conf.MongoCsUrl],
        .error ("obtain balance status from mongo_cs_url=" ++ conf.MongoCsUrl ++
          " error. " ++ err))
    | .ok ok =>
      if ok then
        ([.GetBalancerStatusByUrl conf.MongoCsUrl],
          .error "source mongodb sharding need to stop balancer when document replication occur")
      else if conf.FullSyncExecutorFilterOrphanDocument then
        ([.GetBalancerStatusByUrl conf.MongoCsUrl, .GetChunkMapByUrl conf.MongoCsUrl],
          env.GetChunkMapByUrl conf.MongoCsUrl)
      else
        ([.GetBalancerStatusByUrl conf.MongoCsUrl], .ok none)

/-- Go `getTimestampMap` (full.go 44-59). -/
def getTimestampMap (v : UtilsVars) (env : Env) (conf : Options)
    (sources : List MongoSource) (sslRootFile : String) :
    List Event × Except GoError (GoMap TimestampNode) :=
  if conf.SyncMode == v.VarSyncModeFull then
    ([], .ok none)
  else
    match env.GetAllTimestamp sources sslRootFile with
    | .error err =>
      ([.GetAllTimestamp sources], .error ("fetch source all timestamp failed: " ++ err))
    | .ok ckptMap => ([.GetAllTimestamp sources], .ok ckptMap)

/-- Go `SourceIsSharding` (full.go 251-260). -/
def SourceIsSharding (v : UtilsVars) (conf : Options)
    (coordinator : ReplicationCoordinator) : Bool :=
  if conf.IncrSyncMongoFetchMethod == v.VarIncrSyncMongoFetchMethodChangeStream then
    coordinator.MongoS.isSome
  else
    decide (conf.MongoUrls.length > 1)

/-- The loop of full.go 228-233 over the visited entries: the running
    `smallestNew`, started at `math.MaxInt64`. -/
def smallestNew (entries : List (String × TimestampNode)) : Int :=
  entries.foldl (fun acc val => if acc > val.2.Newest then val.2.Newest else acc) MaxInt64

/-- The map literal of full.go 234-238: one entry under the mongos name whose
    `Oldest` is the zero value. -/
def mergedCheckpoint (mongoS : MongoSource) (ckptMap : GoMap TimestampNode) :
    GoMap TimestampNode :=
  some [(mongoS.ReplicaName, { Oldest := 0, Newest := smallestNew ckptMap.entries })]

/-- The map handed to `docsyncer.Checkpoint` (full.go 226-239). -/
def checkpointArg (v : UtilsVars) (conf : Options) (coordinator : ReplicationCoordinator)
    (ckptMap : GoMap TimestampNode) : GoMap TimestampNode :=
  match coordinator.MongoS with
  | some mongoS =>
    if conf.IncrSyncMongoFetchMethod == v.VarIncrSyncMongoFetchMethodChangeStream then
      mergedCheckpoint mongoS ckptMap
    else ckptMap
  | none => ckptMap

/-- Lines 223-248 of `startDocumentReplication`: update the checkpoint. -/
def updateCheckpoint (v : UtilsVars) (env : Env) (conf : Options)
    (coordinator : ReplicationCoordinator) (ckptMap : GoMap TimestampNode) :
    List Event × Result :=
  if conf.SyncMode != v.VarSyncModeFull &&
      conf.SpecialSourceDBFlag != v.VarSpecialSourceDBFlagAliyunServerless then
    match env.Checkpoint (checkpointArg v conf coordinator ckptMap) with
    | some err => ([.Checkpoint (checkpointArg v conf coordinator ckptMap)], .error err)
    | none => ([.Checkpoint (checkpointArg v conf coordinator ckptMap)], .ok)
  else ([], .ok)

/-- Lines 215-221: foreground index creation, then the checkpoint update. -/
def foregroundIndex (v : UtilsVars) (env : Env) (conf : Options)
    (coordinator : ReplicationCoordinator) (ckptMap : GoMap TimestampNode)
    (toUrl : String) (indexMap : IndexMap) : List Event × Result :=
  if conf.FullSyncCreateIndex == v.VarFullSyncCreateIndexForeground then
    match env.StartIndexSync indexMap toUrl false with
    | some err =>
      ([.StartIndexSync false], .error ("create forground index failed[" ++ err ++ "]"))
    | none => after [.StartIndexSync false] (updateCheckpoint v env conf coordinator ckptMap)
  else updateCheckpoint v env conf coordinator ckptMap

/-- Lines 171-180: the orphan filter given to the worker of `src`. -/
def orphanFilterFor (conf : Options) (shardingChunkMap : ShardingChunkMap)
    (src : MongoSource) : Option OrphanFilter :=
  if conf.FullSyncExecutorFilterOrphanDocument && shardingChunkMap.isSome then
    match shardingChunkMap.lookup src.ReplicaName with
    | some chunkMap => some (NewOrphanFilter src.ReplicaName chunkMap)
    | none => some (NewOrphanFilter src.ReplicaName (some []))
  else none

/-- Lines 170-185: one `NewDBSyncer` per source, numbered from `i`. -/
def spawnWorkers (conf : Options) (shardingChunkMap : ShardingChunkMap) (toUrl : String)
    (fromIsSharding : Bool) : Nat → List MongoSource → List Event
  | _, [] => []
  | i, src :: rest =>
    .NewDBSyncer i src.URL src.ReplicaName toUrl
        (orphanFilterFor conf shardingChunkMap src) fromIsSharding ::
      spawnWorkers conf shardingChunkMap toUrl fromIsSharding (i + 1) rest

/-- Lines 188-197 and 210: the worker goroutines, taken in the order `sched` in
    which they finish; each one that fails overwrites `replError`. An index of
    `sched` that names no worker is skipped. -/
def joinWorkers (env : Env) (sources : List MongoSource) :
    List Nat → Option GoError → List Event × Option GoError
  | [], replError => ([], replError)
  | i :: rest, replError =>
    match sources.get? i with
    | none => joinWorkers env sources rest replError
    | some src =>
      match env.dbSyncerStart i src with
      | some err =>
        (.DBSyncerStart i (some err) :: .DBSyncerClose i ::
          (joinWorkers env sources rest (some err)).1,
          (joinWorkers env sources rest (some err)).2)
      | none =>
        (.DBSyncerStart i none :: .DBSyncerClose i ::
          (joinWorkers env sources rest replError).1,
          (joinWorkers env sources rest replError).2)

/-- Lines 162-213: the shared QoS, the workers, the http server, the join. -/
def parallelCopy (v : UtilsVars) (env : Env) (conf : Options)
    (coordinator : ReplicationCoordinator) (sched : List Nat)
    (shardingChunkMap : ShardingChunkMap) (fromIsSharding : Bool)
    (ckptMap : GoMap TimestampNode) (toUrl : String) (indexMap : IndexMap) :
    List Event × Result :=
  match (joinWorkers env coordinator.RealSourceFullSync sched none).2 with
  | some replError =>
    (.StartQoS conf.FullSyncReaderDocumentBatchSize ::
      (spawnWorkers conf shardingChunkMap toUrl fromIsSharding 0 coordinator.RealSourceFullSync
        ++ .FullSyncHttpListen ::
          (joinWorkers env coordinator.RealSourceFullSync sched none).1),
      .error replError)
  | none =>
    after (.StartQoS conf.FullSyncReaderDocumentBatchSize ::
      (spawnWorkers conf shardingChunkMap toUrl fromIsSharding 0 coordinator.RealSourceFullSync
        ++ .FullSyncHttpListen ::
          (joinWorkers env coordinator.RealSourceFullSync sched none).1))
      (foregroundIndex v env conf coordinator ckptMap toUrl indexMap)

/-- Lines 139-160: fetch the indexes, create them in the background if asked. -/
def fetchIndexPhase (v : UtilsVars) (env : Env) (conf : Options)
    (coordinator : ReplicationCoordinator) (sched : List Nat)
    (shardingChunkMap : ShardingChunkMap) (fromIsSharding : Bool)
    (ckptMap : GoMap TimestampNode) (toUrl : String) : List Event × Result :=
  if conf.FullSyncCreateIndex != v.VarFullSyncCreateIndexNone then
    match env.fetchIndexes coordinator.RealSourceFullSync with
    | .error err =>
      ([.fetchIndexes coordinator.RealSourceFullSync],
        .error ("fetch index failed[" ++ err ++ "]"))
    | .ok indexMap =>
      if conf.FullSyncCreateIndex == v.VarFullSyncCreateIndexBackground then
        match env.StartIndexSync indexMap toUrl true with
        | some err =>
          ([.fetchIndexes coordinator.RealSourceFullSync, .StartIndexSync true],
            .error ("create background index failed[" ++ err ++ "]"))
        | none =>
          after [.fetchIndexes coordinator.RealSourceFullSync, .StartIndexSync true]
            (parallelCopy v env conf coordinator sched shardingChunkMap fromIsSharding
              ckptMap toUrl indexMap)
      else
        after [.fetchIndexes coordinator.RealSourceFullSync]
          (parallelCopy v env conf coordinator sched shardingChunkMap fromIsSharding
            ckptMap toUrl indexMap)
  else
    parallelCopy v env conf coordinator sched shardingChunkMap fromIsSharding
      ckptMap toUrl none

/-- Lines 117-137: drop the target collections, shard the target if needed. -/
def prepareTarget (v : UtilsVars) (env : Env) (conf : Options)
    (coordinator : ReplicationCoordinator) (sched : List Nat)
    (shardingChunkMap : ShardingChunkMap) (fromIsSharding : Bool) (nsSet : NsSet)
    (ckptMap : GoMap TimestampNode) (toUrl : String) (toConn : Option MongoCommunityConn) :
    List Event × Result :=
  match env.StartDropDestCollection nsSet toConn with
  | some err => ([.StartDropDestCollection nsSet], .error err)
  | none =>
    if env.IsShardingToSharding fromIsSharding toConn then
      match env.StartNamespaceSpecSyncForSharding
          (if conf.MongoSUrl.length > 0 then conf.MongoSUrl else conf.MongoCsUrl) toConn with
      | some err =>
        ([.StartDropDestCollection nsSet, .IsShardingToSharding fromIsSharding,
          .StartNamespaceSpecSyncForSharding
            (if conf.MongoSUrl.length > 0 then conf.MongoSUrl else conf.MongoCsUrl)],
          .error err)
      | none =>
        after [.StartDropDestCollection nsSet, .IsShardingToSharding fromIsSharding,
          .StartNamespaceSpecSyncForSharding
            (if conf.MongoSUrl.length > 0 then conf.MongoSUrl else conf.MongoCsUrl)]
          (fetchIndexPhase v env conf coordinator sched shardingChunkMap fromIsSharding
            ckptMap toUrl)
    else
      after [.StartDropDestCollection nsSet, .IsShardingToSharding fromIsSharding]
        (fetchIndexPhase v env conf coordinator sched shardingChunkMap fromIsSharding
          ckptMap toUrl)

/-- Lines 101-111: `TunnelAddress[0]` (a panic on an empty list), the target
    connection unless debugging, and its deferred `Close`. -/
def connectTarget (v : UtilsVars) (env : Env) (conf : Options)
    (coordinator : ReplicationCoordinator) (sched : List Nat)
    (shardingChunkMap : ShardingChunkMap) (fromIsSharding : Bool) (nsSet : NsSet)
    (ckptMap : GoMap TimestampNode) : List Event × Result :=
  match conf.TunnelAddress with
  | [] => ([], .panic)
  | toUrl :: _ =>
    if !conf.FullSyncExecutorDebug then
      match env.NewMongoCommunityConn toUrl v.VarMongoConnectModePrimary
          conf.TunnelMongoSslRootCaFile with
      | .error err => ([.NewMongoCommunityConn toUrl], .error err)
      | .ok toConn =>
        (.NewMongoCommunityConn toUrl ::
          ((prepareTarget v env conf coordinator sched shardingChunkMap fromIsSharding nsSet
              ckptMap toUrl (some toConn)).1 ++ [.ConnClose toUrl]),
          (prepareTarget v env conf coordinator sched shardingChunkMap fromIsSharding nsSet
              ckptMap toUrl (some toConn)).2)
    else
      prepareTarget v env conf coordinator sched shardingChunkMap fromIsSharding nsSet
        ckptMap toUrl none

/-- Lines 92-99: sample the newest timestamps of `coordinator.MongoD`. -/
def sampleTimestamps (v : UtilsVars) (env : Env) (conf : Options)
    (coordinator : ReplicationCoordinator) (sched : List Nat)
    (shardingChunkMap : ShardingChunkMap) (fromIsSharding : Bool) (nsSet : NsSet) :
    List Event × Result :=
  if conf.SpecialSourceDBFlag != v.VarSpecialSourceDBFlagAliyunServerless &&
      decide (coordinator.MongoD.length > 0) then
    match (getTimestampMap v env conf coordinator.MongoD conf.MongoSslRootCaFile).2 with
    | .error err =>
      ((getTimestampMap v env conf coordinator.MongoD conf.MongoSslRootCaFile).1, .error err)
    | .ok ckptMap =>
      after (getTimestampMap v env conf coordinator.MongoD conf.MongoSslRootCaFile).1
        (connectTarget v env conf coordinator sched shardingChunkMap fromIsSharding nsSet
          ckptMap)
  else
    connectTarget v env conf coordinator sched shardingChunkMap fromIsSharding nsSet none

/-- Lines 81-90: resolve the namespaces to copy. -/
def resolveNamespaces (v : UtilsVars) (env : Env) (conf : Options)
    (coordinator : ReplicationCoordinator) (sched : List Nat)
    (shardingChunkMap : ShardingChunkMap) (fromIsSharding : Bool) : List Event × Result :=
  match env.GetAllNamespace coordinator.RealSourceFullSync conf.MongoSslRootCaFile with
  | .error err => ([.GetAllNamespace coordinator.RealSourceFullSync], .error err)
  | .ok nsSet =>
    after [.GetAllNamespace coordinator.RealSourceFullSync]
      (sampleTimestamps v env conf coordinator sched shardingChunkMap fromIsSharding nsSet)

/-- The chunk map held in `shardingChunkMap` once lines 64-79 are passed: the
    one `fetchChunkMap` returned, or the nil map when it was not called. -/
def fetchedChunkMap (v : UtilsVars) (env : Env) (conf : Options)
    (coordinator : ReplicationCoordinator) : ShardingChunkMap :=
  if SourceIsSharding v conf coordinator && coordinator.MongoS.isNone then
    match (fetchChunkMap v env conf (SourceIsSharding v conf coordinator)).2 with
    | .ok shardingChunkMap => shardingChunkMap
    | .error _ => none
  else none

/-- Go `startDocumentReplication` (full.go 61-249). `sched` is the order in which
    the worker goroutines finish. The result is the recorded calls and how the
    function ended. -/
def startDocumentReplication (v : UtilsVars) (env : Env) (conf : Options)
    (coordinator : ReplicationCoordinator) (sched : List Nat) : List Event × Result :=
  if SourceIsSharding v conf coordinator && coordinator.MongoS.isNone then
    match (fetchChunkMap v env conf (SourceIsSharding v conf coordinator)).2 with
    | .error err =>
      ((fetchChunkMap v env conf (SourceIsSharding v conf coordinator)).1, .error err)
    | .ok shardingChunkMap =>
      after (fetchChunkMap v env conf (SourceIsSharding v conf coordinator)).1
        (resolveNamespaces v env conf coordinator sched shardingChunkMap
          (SourceIsSharding v conf coordinator))
  else
    resolveNamespaces v env conf coordinator sched none (SourceIsSharding v conf coordinator)

/-! ## extra_job.go -/

/-- The constant `NameCheckUniqueIndexExistsJob`. -/
def NameCheckUniqueIndexExistsJob : String := "CheckIndexExistsJob"

/-- The struct `CheckUniqueIndexExistsJob`. -/
structure CheckUniqueIndexExistsJob where
  interval : Int
  collections : List String
  urls : List MongoSource
  deriving DecidableEq

/-- Go `NewCheckUniqueIndexExistsJob` (extra_job.go 63-69). -/
def NewCheckUniqueIndexExistsJob (interval : Int) (collections : List String)
    (urls : List MongoSource) : CheckUniqueIndexExistsJob :=
  { interval := interval, collections := collections, urls := urls }

/-- The interface `extraJob`; `CheckUniqueIndexExistsJob` is its only
    implementation. -/
inductive extraJob where
  | checkUniqueIndexExists (job : CheckUniqueIndexExistsJob)
  deriving DecidableEq

/-- The method `Name()` (extra_job.go 71-73). -/
def extraJob.Name : extraJob → String
  | .checkUniqueIndexExists _ => NameCheckUniqueIndexExistsJob

/-- The interval a job was built with. -/
def extraJob.interval : extraJob → Int
  | .checkUniqueIndexExists job => job.interval

/-- The registry `extraJobList`, a `map[int][]extraJob`, as its entries. -/
abbrev JobRegistry := List (Int × List extraJob)

/-- The read `extraJobList[interval]`: the nil slice for an absent key. -/
def JobRegistry.get (reg : JobRegistry) (interval : Int) : List extraJob :=
  match reg.lookup interval with
  | some jobs => jobs
  | none => []

/-- The write `extraJobList[interval] = jobs`. -/
def JobRegistry.set : JobRegistry → Int → List extraJob → JobRegistry
  | [], interval, jobs => [(interval, jobs)]
  | (k, old) :: rest, interval, jobs =>
    if k == interval then (k, jobs) :: rest
    else (k, old) :: JobRegistry.set rest interval jobs

/-- A value passed in the variadic `input ...interface{}`. -/
inductive GoValue where
  | strings (l : List String)
  | sources (l : List MongoSource)
  | other (repr : String)
  deriving DecidableEq

/-- Go `AddExtraJob` (extra_job.go 30-42) as a transition of the registry. `none`
    is the panic of `input[0]`, `input[1]` or of a failed type assertion. -/
def AddExtraJob (name : String) (interval : Int) (input : List GoValue)
    (extraJobList : JobRegistry) : Option JobRegistry :=
  if name == NameCheckUniqueIndexExistsJob then
    match input with
    | .strings collections :: .sources urls :: _ =>
      some (extraJobList.set interval
        (extraJobList.get interval ++
          [.checkUniqueIndexExists (NewCheckUniqueIndexExistsJob interval collections urls)]))
    | _ => none
  else some extraJobList

/-- Go `RunExtraJob` (extra_job.go 44-55): the registry after the call and the
    jobs started with `go job.Run()`; the returned error is always nil. -/
def RunExtraJob (conf : Options) (RealSourceIncrSync : List MongoSource)
    (extraJobList : JobRegistry) : Option (JobRegistry × List extraJob) :=
  if conf.IncrSyncShardByObjectIdWhiteList.length != 0 then
    match AddExtraJob NameCheckUniqueIndexExistsJob 10
        [.strings conf.IncrSyncShardByObjectIdWhiteList, .sources RealSourceIncrSync]
        extraJobList with
    | none => none
    | some reg => some (reg, (reg.map (fun kv => kv.2)).flatten)
  else some (extraJobList, (extraJobList.map (fun kv => kv.2)).flatten)

/-- A call that can change the registry. -/
inductive RegistryCall where
  | add (name : String) (interval : Int) (input : List GoValue)
  | run (conf : Options) (RealSourceIncrSync : List MongoSource)

/-- The registry after one call; `none` when the call panics. -/
def RegistryCall.apply (reg : JobRegistry) : RegistryCall → Option JobRegistry
  | .add name interval input => AddExtraJob name interval input reg
  | .run conf sources => (RunExtraJob conf sources reg).map (fun r => r.1)

/-- The registry after a sequence of calls, from the registry `reg`. -/
def runCalls : JobRegistry → List RegistryCall → Option JobRegistry
  | reg, [] => some reg
  | reg, c :: rest =>
    match c.apply reg with
    | none => none
    | some reg1 => runCalls reg1 rest

/-- The number of job instances held for the pair `(name, interval)`. -/
def instancesOf (reg : JobRegistry) (name : String) (interval : Int) : Nat :=
  ((reg.map (fun kv => kv.2)).flatten.filter
    (fun job => job.Name == name && job.interval == interval)).length

/-- Whether a call registers a job for the pair `(name, interval)`. -/
def RegistryCall.registers (name : String) (interval : Int) : RegistryCall → Bool
  | .add n i _ => n == NameCheckUniqueIndexExistsJob && n == name && i == interval
  | .run conf _ =>
    conf.IncrSyncShardByObjectIdWhiteList.length != 0 &&
      NameCheckUniqueIndexExistsJob == name && interval == 10

/-- A value of a BSON element (`bson.RawValue`): a string, a boolean, or a value
    of another type given by its extended-JSON text. -/
inductive RawValue where
  | str (s : String)
  | boolean (b : Bool)
  | other (extJSON : String)
  deriving DecidableEq

/-- A BSON document (`bson.Raw`): its elements in order. -/
abbrev Raw := List (String × RawValue)

/-- Go `Raw.LookupErr(key)`: the first element under `key`; `none` is a non-nil
    error. -/
def Raw.LookupErr (doc : Raw) (key : String) : Option RawValue :=
  doc.lookup key

/-- Go `RawValue.String()` of the BSON driver: the value in extended JSON. A BSON
    string is written between double quotes with its body escaped as in JSON;
    `escape` is that escaping of the body. -/
def RawValue_String (escape : String → String) : RawValue → String
  | .str s => "\"" ++ escape s ++ "\""
  | .boolean b => if b then "true" else "false"
  | .other extJSON => extJSON

/-- Go `RawValue.Boolean()`: the boolean held; `none` is the panic on a value of
    another type. -/
def RawValue_Boolean : RawValue → Option Bool
  | .boolean b => some b
  | _ => none

/-- Go `strings.HasPrefix(s, p)`. -/
def HasPrefix (s p : String) : Bool :=
  p.toList.isPrefixOf s.toList

/-- What the test of extra_job.go 101-104 does with one index descriptor. -/
inductive IndexCheck where
  | pass
  | unique
  | panic
  deriving DecidableEq

/-- The condition of extra_job.go 101-104 on `cursor.Current`, evaluated left to
    right with short-circuit `&&`. -/
def checkIndex (escape : String → String) (current : Raw) : IndexCheck :=
  match current.LookupErr "name", current.LookupErr "unique" with
  | some name, some unique =>
    if !HasPrefix (RawValue_String escape name) "_id" then
      match RawValue_Boolean unique with
      | none => .panic
      | some b => if b == true then .unique else .pass
    else .pass
  | _, _ => .pass

/-- Go `utils.NS`. -/
structure NS where
  Database : String
  Collection : String
  deriving DecidableEq

/-- How `innerRun` stands after the ticks it was given: it returned (`none` is
    the nil error), it panicked, or it is still waiting for the next tick. -/
inductive JobResult where
  | returned (err : Option GoError)
  | panic
  | ticking
  deriving DecidableEq

/-- What the job sees of the outside: connections, `utils.NewNS`, the driver's
    string escaping and the `%v` text of a document. -/
structure JobEnv where
  NewMongoCommunityConn : String → String → String → Except GoError MongoCommunityConn
  NewNS : String → NS
  escape : String → String
  format : Raw → String

/-- The error built at extra_job.go 105-107. -/
def uniqueError (jenv : JobEnv) (source : MongoSource) (ns : NS) (current : Raw) : GoError :=
  "extra job[" ++ NameCheckUniqueIndexExistsJob ++ "] with source[" ++ source.URL ++
    "] query collection[" ++ ns.Database ++ " - " ++ ns.Collection ++ "] find unique[" ++
    jenv.format current ++ "]"

/-- The loop `for cursor.Next(...)` (extra_job.go 99-109) over the descriptors
    the cursor yields. `ticking` means no descriptor made the function return. -/
def scanCursor (jenv : JobEnv) (source : MongoSource) (ns : NS) : List Raw → JobResult
  | [] => .ticking
  | current :: rest =>
    match checkIndex jenv.escape current with
    | .pass => scanCursor jenv source ns rest
    | .unique => .returned (some (uniqueError jenv source ns current))
    | .panic => .panic

/-- The index listings of one tick: for source number `i` and namespace `ns`,
    the descriptors the cursor yields, or `none` when `List` gave a nil cursor
    (its error is discarded, and `cursor.Next` then panics). -/
abbrev Listing := Nat → NS → Option (List Raw)

/-- The loop over `nsList` (extra_job.go 96-110) for source number `i`. -/
def scanNamespaces (jenv : JobEnv) (listing : Listing) (i : Nat) (source : MongoSource) :
    List NS → JobResult
  | [] => .ticking
  | ns :: rest =>
    match listing i ns with
    | none => .panic
    | some docs =>
      match scanCursor jenv source ns docs with
      | .ticking => scanNamespaces jenv listing i source rest
      | r => r

/-- The loop over `cui.urls` (extra_job.go 95-111), sources numbered from `i`. -/
def scanSources (jenv : JobEnv) (listing : Listing) (nsList : List NS) :
    Nat → List MongoSource → JobResult
  | _, [] => .ticking
  | i, source :: rest =>
    match scanNamespaces jenv listing i source nsList with
    | .ticking => scanSources jenv listing nsList (i + 1) rest
    | r => r

/-- The ticker loop (extra_job.go 93-112) over the ticks observed so far. -/
def tickLoop (jenv : JobEnv) (cui : CheckUniqueIndexExistsJob) (nsList : List NS) :
    List Listing → JobResult
  | [] => .ticking
  | listing :: rest =>
    match scanSources jenv listing nsList 0 cui.urls with
    | .ticking => tickLoop jenv cui nsList rest
    | r => r

/-- The connection loop (extra_job.go 78-85): `false` when a connection fails,
    in which case `innerRun` returns nil. -/
def connectAll (v : UtilsVars) (jenv : JobEnv) (conf : Options) : List MongoSource → Bool
  | [] => true
  | source :: rest =>
    match jenv.NewMongoCommunityConn source.URL v.VarMongoConnectModeSecondaryPreferred
        conf.MongoSslRootCaFile with
    | .error _ => false
    | .ok _ => connectAll v jenv conf rest

/-- The conversion of an integer to `int64` with wrap-around. -/
def wrapInt64 (x : Int) : Int :=
  (x + 9223372036854775808) % 18446744073709551616 - 9223372036854775808

/-- The period `time.Duration(cui.interval) * time.Second` in nanoseconds. -/
def tickerPeriod (interval : Int) : Int :=
  wrapInt64 (interval * 1000000000)

/-- Go `CheckUniqueIndexExistsJob.innerRun` (extra_job.go 75-115) over the ticks
    observed so far. `time.NewTicker` panics on a period that is not
    positive. -/
def innerRun (v : UtilsVars) (jenv : JobEnv) (conf : Options)
    (cui : CheckUniqueIndexExistsJob) (ticks : List Listing) : JobResult :=
  if connectAll v jenv conf cui.urls then
    if tickerPeriod cui.interval ≤ 0 then .panic
    else tickLoop jenv cui (cui.collections.map jenv.NewNS) ticks
  else .returned none

/-- How `Run` stands: the process was aborted by `LOG.Crashf`, or `Run` returned,
    panicked, or is still ticking. -/
inductive RunResult where
  | crashed (msg : String)
  | returned
  | panic
  | ticking
  deriving DecidableEq

/-- Go `CheckUniqueIndexExistsJob.Run` (extra_job.go 117-123). -/
def Run (v : UtilsVars) (jenv : JobEnv) (conf : Options)
    (cui : CheckUniqueIndexExistsJob) (ticks : List Listing) : RunResult :=
  match innerRun v jenv conf cui ticks with
  | .returned (some err) => .crashed err
  | .returned none => .returned
  | .panic => .panic
  | .ticking => .ticking

/-! ## Concrete inputs used by the examples -/

/-- A concrete choice of the `utils` constants. -/
def utilsVars : UtilsVars :=
  { VarIncrSyncMongoFetchMethodChangeStream := "change_stream"
    VarSyncModeFull := "full"
    VarSpecialSourceDBFlagAliyunServerless := "aliyun_serverless"
    VarFullSyncCreateIndexNone := "none"
    VarFullSyncCreateIndexBackground := "background"
    VarFullSyncCreateIndexForeground := "foreground"
    VarMongoConnectModePrimary := "primary"
    VarMongoConnectModeSecondaryPreferred := "secondaryPreferred" }

/-- Options of a run that copies two shards directly and tails the oplog. -/
def oplogOptions : Options :=
  { IncrSyncMongoFetchMethod := "oplog"
    MongoUrls := ["mongodb://s1", "mongodb://s2"]
    MongoCsUrl := "mongodb://cs"
    MongoSUrl := ""
    MongoSslRootCaFile := ""
    SyncMode := "all"
    SpecialSourceDBFlag := ""
    TunnelAddress := ["mongodb://target"]
    TunnelMongoSslRootCaFile := ""
    FullSyncExecutorDebug := false
    FullSyncExecutorFilterOrphanDocument := true
    FullSyncCreateIndex := "foreground"
    FullSyncReaderDocumentBatchSize := 128
    TransformNamespace := []
    IncrSyncShardByObjectIdWhiteList := [] }

/-- The same options with the change-stream fetch method. -/
def changeStreamOptions : Options :=
  { oplogOptions with IncrSyncMongoFetchMethod := "change_stream", MongoSUrl := "mongodb://s" }

/-- Shard sources. -/
def shard1 : MongoSource := { URL := "mongodb://s1", ReplicaName := "S1" }

/-- Second shard. -/
def shard2 : MongoSource := { URL := "mongodb://s2", ReplicaName := "S2" }

/-- Third shard. -/
def shard3 : MongoSource := { URL := "mongodb://s3", ReplicaName := "S3" }

/-- The mongos router. -/
def mongos : MongoSource := { URL := "mongodb://s", ReplicaName := "mongos" }

/-- A coordinator copying two shards directly, without a mongos. -/
def directCoordinator : ReplicationCoordinator :=
  { MongoD := [shard1, shard2], MongoS := none,
    RealSourceFullSync := [shard1, shard2], RealSourceIncrSync := [shard1, shard2] }

/-- A coordinator reading three shards through a mongos. -/
def mongosCoordinator : ReplicationCoordinator :=
  { MongoD := [shard1, shard2, shard3], MongoS := some mongos,
    RealSourceFullSync := [mongos], RealSourceIncrSync := [mongos] }

/-- A chunk map with entries for `S1` and `S2`. -/
def twoShardChunks : ShardingChunkMap :=
  some [("S1", some [("db.c", [{ lower := 0, upper := 10 }])]),
        ("S2", some [("db.c", [{ lower := 10, upper := 20 }])])]

/-- The timestamps sampled at three shards. -/
def threeTimestamps : GoMap TimestampNode :=
  some [("S1", { Oldest := 1, Newest := 100 }), ("S2", { Oldest := 2, Newest := 80 }),
        ("S3", { Oldest := 3, Newest := 120 })]

/-- An environment in which every call succeeds, the balancer is stopped. -/
def quietEnv : Env :=
  { GetBalancerStatusByUrl := fun _ => .ok false
    GetChunkMapByUrl := fun _ => .ok twoShardChunks
    GetAllNamespace := fun _ _ => .ok ["db.c"]
    GetAllTimestamp := fun _ _ => .ok threeTimestamps
    NewMongoCommunityConn := fun url _ _ => .ok { url := url }
    StartDropDestCollection := fun _ _ => none
    IsShardingToSharding := fun _ _ => false
    StartNamespaceSpecSyncForSharding := fun _ _ => none
    fetchIndexes := fun _ => .ok none
    StartIndexSync := fun _ _ _ => none
    dbSyncerStart := fun _ _ => none
    Checkpoint := fun _ => none }

/-- The same environment with the balancer running. -/
def balancerActiveEnv : Env :=
  { quietEnv with GetBalancerStatusByUrl := fun _ => .ok true }

/-- The same environment in which the worker of the second source fails. -/
def secondWorkerFailsEnv : Env :=
  { quietEnv with dbSyncerStart := fun i _ => if i = 1 then some "copy failed" else none }

/-- A coordinator reading through a mongos with no mongod source recorded. -/
def routerOnlyCoordinator : ReplicationCoordinator :=
  { MongoD := [], MongoS := some mongos,
    RealSourceFullSync := [mongos], RealSourceIncrSync := [mongos] }

/-- The orphan filter expected for `S1` under `twoShardChunks`. -/
def shard1Filter : OrphanFilter :=
  { replset := "S1", chunkMap := some [("db.c", [{ lower := 0, upper := 10 }])] }

/-- The index descriptor of a unique index on `email`. -/
def emailIndex : Raw := [("name", .str "email_1"), ("unique", .boolean true)]

/-- The index descriptor of the identity index, carrying a `unique` flag. -/
def idIndex : Raw := [("name", .str "_id_"), ("unique", .boolean true)]

/-- An index descriptor without a `unique` field. -/
def plainIndex : Raw := [("name", .str "age_1")]

/-- A job environment whose connections succeed; a namespace is split at its
    first dot, the escaping leaves plain names unchanged. -/
def quietJobEnv : JobEnv :=
  { NewMongoCommunityConn := fun url _ _ => .ok { url := url }
    NewNS := fun c =>
      { Database := String.mk (c.toList.takeWhile (fun ch => ch != '.'))
        Collection := String.mk ((c.toList.dropWhile (fun ch => ch != '.')).drop 1) }
    escape := fun body => body
    format := fun _ => "index" }

/-- The job registered for the collection `db.c` of one shard. -/
def oneShardJob : CheckUniqueIndexExistsJob :=
  NewCheckUniqueIndexExistsJob 10 ["db.c"] [shard1]

/-- The arguments of a registration of the unique-index job. -/
def jobInput : List GoValue := [.strings ["db.c"], .sources [shard1]]

/-- Options with a non-empty object-id whitelist. -/
def whitelistOptions : Options :=
  { oplogOptions with IncrSyncShardByObjectIdWhiteList := ["db.c"] }

/-- Options with the change-stream fetch method, two `mongo_urls` and no
    mongos address. -/
def shardListChangeStreamOptions : Options :=
  { oplogOptions with IncrSyncMongoFetchMethod := "change_stream" }

/-- The job registered for two collections of two shards. -/
def twoShardJob : CheckUniqueIndexExistsJob :=
  NewCheckUniqueIndexExistsJob 10 ["db.a", "db.c"] [shard1, shard2]

/-- The namespace `db.c`. -/
def nsDbC : NS := { Database := "db", Collection := "c" }

/-- A tick in which every listing holds one index without a `unique` field. -/
def cleanListing : Listing := fun _ _ => some [plainIndex]

/-- A tick in which the second shard lists a unique index on `db.c` after a
    plain one. -/
def emailListing : Listing := fun i ns =>
  if i = 1 ∧ ns = nsDbC then some ([plainIndex] ++ emailIndex :: []) else some [plainIndex]

/-! ## Notions used to reason about a recorded run -/

/-- Events recorded from line 162 of full.go on: the QoS, the workers, the http
    server, the foreground index creation and the checkpoint. -/
def Event.late : Event → Bool
  | .StartQoS _ => true
  | .NewDBSyncer _ _ _ _ _ _ => true
  | .DBSyncerStart _ _ => true
  | .DBSyncerClose _ => true
  | .FullSyncHttpListen => true
  | .StartIndexSync background => !background
  | .Checkpoint _ => true
  | _ => false

/-- The run `r` ended before line 162, without success. -/
def StopsEarly (r : List Event × Result) : Prop :=
  (∀ e ∈ r.1, Event.late e = false) ∧ r.2 ≠ .ok

/-- The run `r` is the run `q` between events recorded before line 162 and the
    deferred close of the target connection, and ends as `q` does. -/
def Reaches (r q : List Event × Result) : Prop :=
  ∃ pre post, (∀ e ∈ pre, Event.late e = false) ∧ (∀ e ∈ post, Event.late e = false) ∧
    r.1 = pre ++ q.1 ++ post ∧ r.2 = q.2

/-- The value of `ckptMap` once lines 92-99 are passed without error. -/
def sampledCkptMap (v : UtilsVars) (env : Env) (conf : Options)
    (coordinator : ReplicationCoordinator) : GoMap TimestampNode :=
  if conf.SpecialSourceDBFlag != v.VarSpecialSourceDBFlagAliyunServerless &&
      decide (coordinator.MongoD.length > 0) then
    match (getTimestampMap v env conf coordinator.MongoD conf.MongoSslRootCaFile).2 with
    | .ok ckptMap => ckptMap
    | .error _ => none
  else none

/-! ## SourceIsSharding -/

/-- C9, evaluated on the code: with the change-stream fetch method, no mongos
    and two `mongo_urls`, the second condition documented at full.go 252-254
    holds, yet `SourceIsSharding` returns false; the stated equivalence fails
    at this input. -/
theorem SourceIsSharding_two_urls_change_stream :
    ¬ (SourceIsSharding utilsVars shardListChangeStreamOptions directCoordinator = true ↔
        ((directCoordinator.MongoS ≠ none ∧
            shardListChangeStreamOptions.IncrSyncMongoFetchMethod =
              utilsVars.VarIncrSyncMongoFetchMethodChangeStream) ∨
          shardListChangeStreamOptions.MongoUrls.length > 1)) := by
  decide

/-- What the body of `SourceIsSharding` computes: true exactly when either the
    fetch method is change_stream and a mongos is specified, or the fetch method
    is not change_stream and `mongo_urls` lists more than one URI. -/
theorem SourceIsSharding_iff (v : UtilsVars) (conf : Options)
    (coordinator : ReplicationCoordinator) :
    SourceIsSharding v conf coordinator = true ↔
      ((conf.IncrSyncMongoFetchMethod = v.VarIncrSyncMongoFetchMethodChangeStream ∧
          coordinator.MongoS ≠ none) ∨
        (conf.IncrSyncMongoFetchMethod ≠ v.VarIncrSyncMongoFetchMethodChangeStream ∧
          conf.MongoUrls.length > 1)) := by
  unfold SourceIsSharding
  by_cases h : conf.IncrSyncMongoFetchMethod = v.VarIncrSyncMongoFetchMethodChangeStream
  · cases hm : coordinator.MongoS <;> simp [h]
  · simp [h]

/-- Used by C4: a sharded source without mongos is never read by change
    stream. -/
theorem fetch_method_of_direct_sharding (v : UtilsVars) (conf : Options)
    (coordinator : ReplicationCoordinator)
    (hs : SourceIsSharding v conf coordinator = true) (hm : coordinator.MongoS = none) :
    conf.IncrSyncMongoFetchMethod ≠ v.VarIncrSyncMongoFetchMethodChangeStream := by
  intro h
  simp [SourceIsSharding, h, hm] at hs

/-! ## fetchChunkMap -/

/-- C3, as stated, fails: for `isSharding = false` the balancer is not queried
    and, although it is running, the function returns a nil error. -/
theorem fetchChunkMap_replica_set_skips_balancer :
    balancerActiveEnv.GetBalancerStatusByUrl oplogOptions.MongoCsUrl = .ok true ∧
      fetchChunkMap utilsVars balancerActiveEnv oplogOptions false = ([], .ok none) := by
  decide

/-- C3, amended: when `isSharding` is true and the fetch method is not
    change_stream, the first call is the balancer query, and an active balancer
    gives an error and no chunk map after that single call; when `isSharding` is
    false or the fetch method is change_stream, nothing is queried and the
    result is the nil map with a nil error. -/
theorem fetchChunkMap_balancer (v : UtilsVars) (env : Env) (conf : Options)
    (isSharding : Bool) :
    ((isSharding = true ∧
        conf.IncrSyncMongoFetchMethod ≠ v.VarIncrSyncMongoFetchMethodChangeStream) →
      (fetchChunkMap v env conf isSharding).1.head? =
          some (.GetBalancerStatusByUrl conf.MongoCsUrl) ∧
        (env.GetBalancerStatusByUrl conf.MongoCsUrl = .ok true →
          (fetchChunkMap v env conf isSharding).1 =
              [.GetBalancerStatusByUrl conf.MongoCsUrl] ∧
            ∃ err, (fetchChunkMap v env conf isSharding).2 = .error err)) ∧
    ((isSharding = false ∨
        conf.IncrSyncMongoFetchMethod = v.VarIncrSyncMongoFetchMethodChangeStream) →
      fetchChunkMap v env conf isSharding = ([], .ok none)) := by
  constructor
  · rintro ⟨hs, hf⟩
    unfold fetchChunkMap
    cases hb : env.GetBalancerStatusByUrl conf.MongoCsUrl with
    | error e => simp [hs, hf]
    | ok b => cases b <;> by_cases ho : conf.FullSyncExecutorFilterOrphanDocument <;>
        simp [hs, hf, ho]
  · rintro (hs | hf)
    · simp [fetchChunkMap, hs]
    · simp [fetchChunkMap, hf]

/-- Witness of C3: two shards tailed by oplog, balancer running. -/
theorem fetchChunkMap_balancer_witness :
    (fetchChunkMap utilsVars balancerActiveEnv oplogOptions true).1 =
        [.GetBalancerStatusByUrl "mongodb://cs"] ∧
      ∃ err, (fetchChunkMap utilsVars balancerActiveEnv oplogOptions true).2 = .error err :=
  ((fetchChunkMap_balancer utilsVars balancerActiveEnv oplogOptions true).1
    ⟨rfl, by decide⟩).2 (by decide)

/-! ## Structure of a run of startDocumentReplication -/

theorem reaches_refl (q : List Event × Result) : Reaches q q :=
  ⟨[], [], by simp, by simp, by simp, rfl⟩

theorem reaches_after (evs : List Event) (q : List Event × Result)
    (h : ∀ e ∈ evs, Event.late e = false) : Reaches (after evs q) q :=
  ⟨evs, [], h, by simp, by simp [after], rfl⟩

theorem reaches_trans {r q p : List Event × Result} (h1 : Reaches r q) (h2 : Reaches q p) :
    Reaches r p := by
  obtain ⟨pre1, post1, hpre1, hpost1, ht1, hr1⟩ := h1
  obtain ⟨pre2, post2, hpre2, hpost2, ht2, hr2⟩ := h2
  refine ⟨pre1 ++ pre2, post2 ++ post1, ?_, ?_, ?_, hr1.trans hr2⟩
  · intro e he
    rcases List.mem_append.1 he with h | h
    · exact hpre1 e h
    · exact hpre2 e h
  · intro e he
    rcases List.mem_append.1 he with h | h
    · exact hpost2 e h
    · exact hpost1 e h
  · rw [ht1, ht2]; simp [List.append_assoc]

theorem stopsEarly_of_reaches {r q : List Event × Result} (h1 : Reaches r q)
    (h2 : StopsEarly q) : StopsEarly r := by
  obtain ⟨pre, post, hpre, hpost, ht, hr⟩ := h1
  refine ⟨?_, by rw [hr]; exact h2.2⟩
  intro e he
  rw [ht] at he
  rcases List.mem_append.1 he with h | h
  · rcases List.mem_append.1 h with h | h
    · exact hpre e h
    · exact h2.1 e h
  · exact hpost e h

theorem late_mem_of_reaches {r q : List Event × Result} (h : Reaches r q) (e : Event)
    (hl : Event.late e = true) (he : e ∈ r.1) : e ∈ q.1 := by
  obtain ⟨pre, post, hpre, hpost, ht, _⟩ := h
  rw [ht] at he
  rcases List.mem_append.1 he with h | h
  · rcases List.mem_append.1 h with h | h
    · have := hpre e h; rw [hl] at this; cases this
    · exact h
  · have := hpost e h; rw [hl] at this; cases this

theorem late_not_mem_of_stopsEarly {r : List Event × Result} (h : StopsEarly r) (e : Event)
    (hl : Event.late e = true) : e ∉ r.1 := by
  intro he
  have := h.1 e he
  rw [hl] at this; cases this

theorem fetchIndexPhase_cases (v : UtilsVars) (env : Env) (conf : Options)
    (coordinator : ReplicationCoordinator) (sched : List Nat)
    (shardingChunkMap : ShardingChunkMap) (fromIsSharding : Bool)
    (ckptMap : GoMap TimestampNode) (toUrl : String) :
    StopsEarly (fetchIndexPhase v env conf coordinator sched shardingChunkMap fromIsSharding
        ckptMap toUrl) ∨
      ∃ indexMap, Reaches (fetchIndexPhase v env conf coordinator sched shardingChunkMap
          fromIsSharding ckptMap toUrl)
        (parallelCopy v env conf coordinator sched shardingChunkMap fromIsSharding
          ckptMap toUrl indexMap) := by
  unfold fetchIndexPhase
  split
  · split
    · left; simp [StopsEarly, Event.late]
    · rename_i indexMap _
      split
      · split
        · left; simp [StopsEarly, Event.late]
        · right; exact ⟨indexMap, reaches_after _ _ (by simp [Event.late])⟩
      · right; exact ⟨indexMap, reaches_after _ _ (by simp [Event.late])⟩
  · right; exact ⟨none, reaches_refl _⟩

theorem prepareTarget_cases (v : UtilsVars) (env : Env) (conf : Options)
    (coordinator : ReplicationCoordinator) (sched : List Nat)
    (shardingChunkMap : ShardingChunkMap) (fromIsSharding : Bool) (nsSet : NsSet)
    (ckptMap : GoMap TimestampNode) (toUrl : String) (toConn : Option MongoCommunityConn) :
    StopsEarly (prepareTarget v env conf coordinator sched shardingChunkMap fromIsSharding
        nsSet ckptMap toUrl toConn) ∨
      ∃ indexMap, Reaches (prepareTarget v env conf coordinator sched shardingChunkMap
          fromIsSharding nsSet ckptMap toUrl toConn)
        (parallelCopy v env conf coordinator sched shardingChunkMap fromIsSharding
          ckptMap toUrl indexMap) := by
  have key : ∀ evs : List Event, (∀ e ∈ evs, Event.late e = false) →
      (StopsEarly (after evs (fetchIndexPhase v env conf coordinator sched shardingChunkMap
          fromIsSharding ckptMap toUrl)) ∨
        ∃ indexMap, Reaches (after evs (fetchIndexPhase v env conf coordinator sched
            shardingChunkMap fromIsSharding ckptMap toUrl))
          (parallelCopy v env conf coordinator sched shardingChunkMap fromIsSharding
            ckptMap toUrl indexMap)) := by
    intro evs hevs
    rcases fetchIndexPhase_cases v env conf coordinator sched shardingChunkMap fromIsSharding
        ckptMap toUrl with h | ⟨indexMap, h⟩
    · left; exact stopsEarly_of_reaches (reaches_after evs _ hevs) h
    · right; exact ⟨indexMap, reaches_trans (reaches_after evs _ hevs) h⟩
  unfold prepareTarget
  split
  · left; simp [StopsEarly, Event.late]
  · split
    · split
      · left; simp [StopsEarly, Event.late]
      · exact key _ (by simp [Event.late])
    · exact key _ (by simp [Event.late])

theorem connectTarget_cases (v : UtilsVars) (env : Env) (conf : Options)
    (coordinator : ReplicationCoordinator) (sched : List Nat)
    (shardingChunkMap : ShardingChunkMap) (fromIsSharding : Bool) (nsSet : NsSet)
    (ckptMap : GoMap TimestampNode) :
    StopsEarly (connectTarget v env conf coordinator sched shardingChunkMap fromIsSharding
        nsSet ckptMap) ∨
      ∃ toUrl indexMap, Reaches (connectTarget v env conf coordinator sched shardingChunkMap
          fromIsSharding nsSet ckptMap)
        (parallelCopy v env conf coordinator sched shardingChunkMap fromIsSharding
          ckptMap toUrl indexMap) := by
  unfold connectTarget
  split
  · left; simp [StopsEarly]
  · rename_i toUrl tl heq
    split
    · split
      · left; simp [StopsEarly, Event.late]
      · rename_i toConn _
        have hwrap : Reaches
            (Event.NewMongoCommunityConn toUrl ::
              ((prepareTarget v env conf coordinator sched shardingChunkMap fromIsSharding nsSet
                  ckptMap toUrl (some toConn)).1 ++ [Event.ConnClose toUrl]),
              (prepareTarget v env conf coordinator sched shardingChunkMap fromIsSharding nsSet
                  ckptMap toUrl (some toConn)).2)
            (prepareTarget v env conf coordinator sched shardingChunkMap fromIsSharding nsSet
                  ckptMap toUrl (some toConn)) :=
          ⟨[Event.NewMongoCommunityConn toUrl], [Event.ConnClose toUrl],
            by simp [Event.late], by simp [Event.late], by simp, rfl⟩
        rcases prepareTarget_cases v env conf coordinator sched shardingChunkMap
            fromIsSharding nsSet ckptMap toUrl (some toConn) with h | ⟨indexMap, h⟩
        · left; exact stopsEarly_of_reaches hwrap h
        · right; exact ⟨toUrl, indexMap, reaches_trans hwrap h⟩
    · rcases prepareTarget_cases v env conf coordinator sched shardingChunkMap
          fromIsSharding nsSet ckptMap toUrl none with h | ⟨indexMap, h⟩
      · left; exact h
      · right; exact ⟨toUrl, indexMap, h⟩

theorem getTimestampMap_early (v : UtilsVars) (env : Env) (conf : Options)
    (sources : List MongoSource) (sslRootFile : String) :
    ∀ e ∈ (getTimestampMap v env conf sources sslRootFile).1, Event.late e = false := by
  unfold getTimestampMap
  split
  · simp
  · split <;> simp [Event.late]

theorem fetchChunkMap_early (v : UtilsVars) (env : Env) (conf : Options) (isSharding : Bool) :
    ∀ e ∈ (fetchChunkMap v env conf isSharding).1, Event.late e = false := by
  unfold fetchChunkMap
  split
  · simp
  · split
    · simp [Event.late]
    · split
      · simp [Event.late]
      · split <;> simp [Event.late]

theorem sampleTimestamps_cases (v : UtilsVars) (env : Env) (conf : Options)
    (coordinator : ReplicationCoordinator) (sched : List Nat)
    (shardingChunkMap : ShardingChunkMap) (fromIsSharding : Bool) (nsSet : NsSet) :
    StopsEarly (sampleTimestamps v env conf coordinator sched shardingChunkMap fromIsSharding
        nsSet) ∨
      ∃ toUrl indexMap, Reaches (sampleTimestamps v env conf coordinator sched
          shardingChunkMap fromIsSharding nsSet)
        (parallelCopy v env conf coordinator sched shardingChunkMap fromIsSharding
          (sampledCkptMap v env conf coordinator) toUrl indexMap) := by
  unfold sampleTimestamps
  split
  · have hearly := getTimestampMap_early v env conf coordinator.MongoD conf.MongoSslRootCaFile
    rename_i hcond
    split
    · left; exact ⟨hearly, by simp⟩
    · rename_i ckptMap heq
      have hval : sampledCkptMap v env conf coordinator = ckptMap := by
        unfold sampledCkptMap; rw [if_pos hcond, heq]
      rw [hval]
      rcases connectTarget_cases v env conf coordinator sched shardingChunkMap fromIsSharding
          nsSet ckptMap with h | ⟨toUrl, indexMap, h⟩
      · left; exact stopsEarly_of_reaches (reaches_after _ _ hearly) h
      · right; exact ⟨toUrl, indexMap, reaches_trans (reaches_after _ _ hearly) h⟩
  · rename_i hcond
    have hval : sampledCkptMap v env conf coordinator = none := by
      unfold sampledCkptMap; rw [if_neg hcond]
    rw [hval]
    rcases connectTarget_cases v env conf coordinator sched shardingChunkMap fromIsSharding
        nsSet none with h | ⟨toUrl, indexMap, h⟩
    · left; exact h
    · right; exact ⟨toUrl, indexMap, h⟩

theorem resolveNamespaces_cases (v : UtilsVars) (env : Env) (conf : Options)
    (coordinator : ReplicationCoordinator) (sched : List Nat)
    (shardingChunkMap : ShardingChunkMap) (fromIsSharding : Bool) :
    StopsEarly (resolveNamespaces v env conf coordinator sched shardingChunkMap
        fromIsSharding) ∨
      ∃ toUrl indexMap, Reaches (resolveNamespaces v env conf coordinator sched
          shardingChunkMap fromIsSharding)
        (parallelCopy v env conf coordinator sched shardingChunkMap fromIsSharding
          (sampledCkptMap v env conf coordinator) toUrl indexMap) := by
  unfold resolveNamespaces
  split
  · left; simp [StopsEarly, Event.late]
  · rename_i nsSet _
    have hearly : ∀ e ∈ [Event.GetAllNamespace coordinator.RealSourceFullSync],
        Event.late e = false := by simp [Event.late]
    rcases sampleTimestamps_cases v env conf coordinator sched shardingChunkMap fromIsSharding
        nsSet with h | ⟨toUrl, indexMap, h⟩
    · left; exact stopsEarly_of_reaches (reaches_after _ _ hearly) h
    · right; exact ⟨toUrl, indexMap, reaches_trans (reaches_after _ _ hearly) h⟩

/-- A run of `startDocumentReplication` either ends before the copy starts,
    without success, or it is a run of lines 162-248 on the fetched chunk map
    and the sampled timestamps, preceded by the calls of lines 61-160. -/
theorem startDocumentReplication_cases (v : UtilsVars) (env : Env) (conf : Options)
    (coordinator : ReplicationCoordinator) (sched : List Nat) :
    StopsEarly (startDocumentReplication v env conf coordinator sched) ∨
      ∃ toUrl indexMap, Reaches (startDocumentReplication v env conf coordinator sched)
        (parallelCopy v env conf coordinator sched (fetchedChunkMap v env conf coordinator)
          (SourceIsSharding v conf coordinator) (sampledCkptMap v env conf coordinator)
          toUrl indexMap) := by
  unfold startDocumentReplication
  split
  · have hearly := fetchChunkMap_early v env conf (SourceIsSharding v conf coordinator)
    rename_i hcond
    split
    · left; exact ⟨hearly, by simp⟩
    · rename_i shardingChunkMap heq
      have hval : fetchedChunkMap v env conf coordinator = shardingChunkMap := by
        unfold fetchedChunkMap; rw [if_pos hcond, heq]
      rw [hval]
      rcases resolveNamespaces_cases v env conf coordinator sched shardingChunkMap
          (SourceIsSharding v conf coordinator) with h | ⟨toUrl, indexMap, h⟩
      · left; exact stopsEarly_of_reaches (reaches_after _ _ hearly) h
      · right; exact ⟨toUrl, indexMap, reaches_trans (reaches_after _ _ hearly) h⟩
  · rename_i hcond
    have hval : fetchedChunkMap v env conf coordinator = none := by
      unfold fetchedChunkMap; rw [if_neg hcond]
    rw [hval]
    exact resolveNamespaces_cases v env conf coordinator sched none
      (SourceIsSharding v conf coordinator)

/-- A late event of a run was recorded by lines 162-248, and the run ends as
    those lines do. -/
theorem late_event_of_run (v : UtilsVars) (env : Env) (conf : Options)
    (coordinator : ReplicationCoordinator) (sched : List Nat) (e : Event)
    (hl : Event.late e = true)
    (he : e ∈ (startDocumentReplication v env conf coordinator sched).1) :
    ∃ toUrl indexMap,
      e ∈ (parallelCopy v env conf coordinator sched (fetchedChunkMap v env conf coordinator)
          (SourceIsSharding v conf coordinator) (sampledCkptMap v env conf coordinator)
          toUrl indexMap).1 ∧
      (startDocumentReplication v env conf coordinator sched).2 =
        (parallelCopy v env conf coordinator sched (fetchedChunkMap v env conf coordinator)
          (SourceIsSharding v conf coordinator) (sampledCkptMap v env conf coordinator)
          toUrl indexMap).2 := by
  rcases startDocumentReplication_cases v env conf coordinator sched with h | ⟨toUrl, indexMap, h⟩
  · exact absurd he (late_not_mem_of_stopsEarly h e hl)
  · exact ⟨toUrl, indexMap, late_mem_of_reaches h e hl he, h.choose_spec.choose_spec.2.2.2⟩

theorem mem_of_reaches {r q : List Event × Result} (h : Reaches r q) (e : Event)
    (he : e ∈ q.1) : e ∈ r.1 := by
  obtain ⟨pre, post, _, _, ht, _⟩ := h
  rw [ht]
  exact List.mem_append_left _ (List.mem_append_right _ he)

/-! ## The workers -/

theorem spawnWorkers_mem (conf : Options) (shardingChunkMap : ShardingChunkMap)
    (toUrl : String) (fromIsSharding : Bool) (sources : List MongoSource) (i : Nat)
    (e : Event) (he : e ∈ spawnWorkers conf shardingChunkMap toUrl fromIsSharding i sources) :
    ∃ k src, sources.get? k = some src ∧
      e = .NewDBSyncer (i + k) src.URL src.ReplicaName toUrl
        (orphanFilterFor conf shardingChunkMap src) fromIsSharding := by
  induction sources generalizing i with
  | nil => simp [spawnWorkers] at he
  | cons src rest ih =>
    simp only [spawnWorkers, List.mem_cons] at he
    rcases he with h | h
    · exact ⟨0, src, by simp, by simpa using h⟩
    · obtain ⟨k, src1, hk, hev⟩ := ih (i + 1) h
      refine ⟨k + 1, src1, by simpa using hk, ?_⟩
      rw [hev]; congr 1; omega

theorem joinWorkers_mem (env : Env) (sources : List MongoSource) (sched : List Nat)
    (replError : Option GoError) (e : Event)
    (he : e ∈ (joinWorkers env sources sched replError).1) :
    (∃ i r, e = .DBSyncerStart i r) ∨ (∃ i, e = .DBSyncerClose i) := by
  induction sched generalizing replError with
  | nil => simp [joinWorkers] at he
  | cons i rest ih =>
    unfold joinWorkers at he
    split at he
    · exact ih _ he
    · split at he
      · simp only [List.mem_cons] at he
        rcases he with h | h | h
        · exact Or.inl ⟨_, _, h⟩
        · exact Or.inr ⟨_, h⟩
        · exact ih _ h
      · simp only [List.mem_cons] at he
        rcases he with h | h | h
        · exact Or.inl ⟨_, _, h⟩
        · exact Or.inr ⟨_, h⟩
        · exact ih _ h

theorem joinWorkers_isSome (env : Env) (sources : List MongoSource) (sched : List Nat)
    (replError : Option GoError) (h : replError.isSome = true) :
    (joinWorkers env sources sched replError).2.isSome = true := by
  induction sched generalizing replError with
  | nil => simpa [joinWorkers] using h
  | cons i rest ih =>
    unfold joinWorkers
    split
    · exact ih _ h
    · split
      · exact ih _ rfl
      · exact ih _ h

theorem joinWorkers_failed (env : Env) (sources : List MongoSource) (sched : List Nat)
    (replError : Option GoError) (i : Nat) (err : GoError)
    (he : Event.DBSyncerStart i (some err) ∈ (joinWorkers env sources sched replError).1) :
    (joinWorkers env sources sched replError).2.isSome = true := by
  induction sched generalizing replError with
  | nil => simp [joinWorkers] at he
  | cons j rest ih =>
    unfold joinWorkers at he ⊢
    split at he
    · exact ih _ he
    · split at he
      · exact joinWorkers_isSome env sources rest _ rfl
      · simp only [List.mem_cons] at he
        rcases he with h | h | h
        · cases h
        · cases h
        · exact ih _ h

theorem joinWorkers_error_source (env : Env) (sources : List MongoSource) (sched : List Nat)
    (replError : Option GoError) (err : GoError)
    (h : (joinWorkers env sources sched replError).2 = some err) :
    replError = some err ∨
      ∃ i, Event.DBSyncerStart i (some err) ∈ (joinWorkers env sources sched replError).1 := by
  induction sched generalizing replError with
  | nil => left; simpa [joinWorkers] using h
  | cons j rest ih =>
    unfold joinWorkers at h ⊢
    split at h
    · exact ih _ h
    · split at h
      · rename_i err1 _
        rcases ih _ h with h1 | ⟨i, h1⟩
        · right
          refine ⟨j, ?_⟩
          cases h1
          exact List.mem_cons_self _ _
        · right
          exact ⟨i, List.mem_cons_of_mem _ (List.mem_cons_of_mem _ h1)⟩
      · rcases ih _ h with h1 | ⟨i, h1⟩
        · left; exact h1
        · right
          exact ⟨i, List.mem_cons_of_mem _ (List.mem_cons_of_mem _ h1)⟩

/-! ## Lines 162-248 -/

theorem updateCheckpoint_mem (v : UtilsVars) (env : Env) (conf : Options)
    (coordinator : ReplicationCoordinator) (ckptMap : GoMap TimestampNode) (e : Event)
    (he : e ∈ (updateCheckpoint v env conf coordinator ckptMap).1) :
    e = .Checkpoint (checkpointArg v conf coordinator ckptMap) ∧
      conf.SyncMode ≠ v.VarSyncModeFull ∧
      conf.SpecialSourceDBFlag ≠ v.VarSpecialSourceDBFlagAliyunServerless ∧
      (updateCheckpoint v env conf coordinator ckptMap).2 =
        (match env.Checkpoint (checkpointArg v conf coordinator ckptMap) with
          | some err => Result.error err
          | none => Result.ok) := by
  unfold updateCheckpoint at he ⊢
  split at he
  · rename_i hcond
    rw [if_pos hcond]
    simp only [Bool.and_eq_true, bne_iff_ne, ne_eq] at hcond
    split at he <;> rename_i heq <;> simp only [List.mem_singleton] at he <;>
      simp [he, hcond, heq]
  · simp at he

theorem foregroundIndex_mem (v : UtilsVars) (env : Env) (conf : Options)
    (coordinator : ReplicationCoordinator) (ckptMap : GoMap TimestampNode)
    (toUrl : String) (indexMap : IndexMap) (e : Event)
    (he : e ∈ (foregroundIndex v env conf coordinator ckptMap toUrl indexMap).1) :
    e = .StartIndexSync false ∨
      (e ∈ (updateCheckpoint v env conf coordinator ckptMap).1 ∧
        (foregroundIndex v env conf coordinator ckptMap toUrl indexMap).2 =
          (updateCheckpoint v env conf coordinator ckptMap).2) := by
  unfold foregroundIndex at he ⊢
  split at he
  · rename_i hcond
    rw [if_pos hcond]
    split at he
    · left; simpa using he
    · rename_i heq
      simp only [after, List.mem_append, List.mem_singleton] at he
      rcases he with h | h
      · left; exact h
      · right; exact ⟨h, rfl⟩
  · rename_i hcond
    rw [if_neg hcond]
    right; exact ⟨he, rfl⟩

/-- The events of lines 162-213, before the join is evaluated. -/
theorem parallelCopy_mem (v : UtilsVars) (env : Env) (conf : Options)
    (coordinator : ReplicationCoordinator) (sched : List Nat)
    (shardingChunkMap : ShardingChunkMap) (fromIsSharding : Bool)
    (ckptMap : GoMap TimestampNode) (toUrl : String) (indexMap : IndexMap) (e : Event)
    (he : e ∈ (parallelCopy v env conf coordinator sched shardingChunkMap fromIsSharding
        ckptMap toUrl indexMap).1) :
    e = .StartQoS conf.FullSyncReaderDocumentBatchSize ∨
      e ∈ spawnWorkers conf shardingChunkMap toUrl fromIsSharding 0
        coordinator.RealSourceFullSync ∨
      e = .FullSyncHttpListen ∨
      e ∈ (joinWorkers env coordinator.RealSourceFullSync sched none).1 ∨
      ((joinWorkers env coordinator.RealSourceFullSync sched none).2 = none ∧
        e ∈ (foregroundIndex v env conf coordinator ckptMap toUrl indexMap).1 ∧
        (parallelCopy v env conf coordinator sched shardingChunkMap fromIsSharding
          ckptMap toUrl indexMap).2 =
          (foregroundIndex v env conf coordinator ckptMap toUrl indexMap).2) := by
  unfold parallelCopy at he ⊢
  split at he
  · simp only [List.mem_cons, List.mem_append] at he
    tauto
  · rename_i heq
    simp only [after, List.mem_cons, List.mem_append, List.cons_append] at he
    simp only [heq, after]
    tauto

/-- A checkpoint recorded in a run was written by lines 223-245 on the sampled
    timestamps, and its outcome is the outcome of the run. -/
theorem checkpoint_of_run (v : UtilsVars) (env : Env) (conf : Options)
    (coordinator : ReplicationCoordinator) (sched : List Nat) (m : GoMap TimestampNode)
    (he : Event.Checkpoint m ∈ (startDocumentReplication v env conf coordinator sched).1) :
    m = checkpointArg v conf coordinator (sampledCkptMap v env conf coordinator) ∧
      (startDocumentReplication v env conf coordinator sched).2 =
        (match env.Checkpoint m with
          | some err => Result.error err
          | none => Result.ok) := by
  obtain ⟨toUrl, indexMap, hmem, hres⟩ :=
    late_event_of_run v env conf coordinator sched (Event.Checkpoint m) rfl he
  rw [hres]
  rcases parallelCopy_mem _ _ _ _ _ _ _ _ _ _ _ hmem with h | h | h | h | ⟨_, h, hr⟩
  · cases h
  · obtain ⟨k, src, _, h⟩ := spawnWorkers_mem _ _ _ _ _ _ _ h
    cases h
  · cases h
  · rcases joinWorkers_mem _ _ _ _ _ h with ⟨i, r, h⟩ | ⟨i, h⟩ <;> cases h
  · rw [hr]
    rcases foregroundIndex_mem _ _ _ _ _ _ _ _ h with h | ⟨h, hr2⟩
    · cases h
    · rw [hr2]
      obtain ⟨h1, _, _, h4⟩ := updateCheckpoint_mem _ _ _ _ _ _ h
      cases h1
      exact ⟨rfl, h4⟩

/-! ## The merged checkpoint -/

theorem foldl_smallest_le_acc (l : List (String × TimestampNode)) (acc : Int) :
    l.foldl (fun acc val => if acc > val.2.Newest then val.2.Newest else acc) acc ≤ acc := by
  induction l generalizing acc with
  | nil => simp
  | cons x rest ih =>
    simp only [List.foldl_cons]
    split
    · exact le_trans (ih _) (by omega)
    · exact ih _

theorem foldl_smallest_le_mem (l : List (String × TimestampNode)) (acc : Int) :
    ∀ e ∈ l,
      l.foldl (fun acc val => if acc > val.2.Newest then val.2.Newest else acc) acc ≤
        e.2.Newest := by
  induction l generalizing acc with
  | nil => simp
  | cons x rest ih =>
    intro e he
    simp only [List.foldl_cons]
    rcases List.mem_cons.1 he with h | h
    · subst h
      split
      · exact foldl_smallest_le_acc rest _
      · exact le_trans (foldl_smallest_le_acc rest _) (by omega)
    · exact ih _ e h

theorem foldl_smallest_attained (l : List (String × TimestampNode)) (acc : Int) :
    l.foldl (fun acc val => if acc > val.2.Newest then val.2.Newest else acc) acc = acc ∨
      ∃ e ∈ l, e.2.Newest =
        l.foldl (fun acc val => if acc > val.2.Newest then val.2.Newest else acc) acc := by
  induction l generalizing acc with
  | nil => simp
  | cons x rest ih =>
    simp only [List.foldl_cons]
    split
    · rcases ih x.2.Newest with h | ⟨e, he, h⟩
      · right; exact ⟨x, List.mem_cons_self _ _, h.symm⟩
      · right; exact ⟨e, List.mem_cons_of_mem _ he, h⟩
    · rcases ih acc with h | ⟨e, he, h⟩
      · left; exact h
      · right; exact ⟨e, List.mem_cons_of_mem _ he, h⟩

theorem smallestNew_le (l : List (String × TimestampNode)) :
    ∀ e ∈ l, smallestNew l ≤ e.2.Newest :=
  foldl_smallest_le_mem l MaxInt64

theorem smallestNew_attained (l : List (String × TimestampNode)) (hne : l ≠ [])
    (h64 : ∀ e ∈ l, inInt64 e.2.Newest) : ∃ e ∈ l, e.2.Newest = smallestNew l := by
  rcases foldl_smallest_attained l MaxInt64 with h | h
  · cases l with
    | nil => exact absurd rfl hne
    | cons x rest =>
      refine ⟨x, List.mem_cons_self _ _, ?_⟩
      have h1 := smallestNew_le (x :: rest) x (List.mem_cons_self _ _)
      have h2 := (h64 x (List.mem_cons_self _ _)).2
      have h3 : smallestNew (x :: rest) = MaxInt64 := h
      omega
  · exact h

theorem sampledCkptMap_of_sample (v : UtilsVars) (env : Env) (conf : Options)
    (coordinator : ReplicationCoordinator) (m : GoMap TimestampNode)
    (hmode : conf.SyncMode ≠ v.VarSyncModeFull)
    (hflag : conf.SpecialSourceDBFlag ≠ v.VarSpecialSourceDBFlagAliyunServerless)
    (hd : coordinator.MongoD ≠ [])
    (hsample : env.GetAllTimestamp coordinator.MongoD conf.MongoSslRootCaFile = .ok m) :
    sampledCkptMap v env conf coordinator = m := by
  have hlen : coordinator.MongoD.length > 0 := List.length_pos.2 hd
  simp [sampledCkptMap, getTimestampMap, hmode, hflag, hlen, hsample]

theorem sampledCkptMap_of_no_mongod (v : UtilsVars) (env : Env) (conf : Options)
    (coordinator : ReplicationCoordinator) (hd : coordinator.MongoD = []) :
    sampledCkptMap v env conf coordinator = none := by
  simp [sampledCkptMap, hd]

/-- C1. In a run with an incremental phase (sync mode not full-only, source not
    aliyun_serverless) that reads through mongos with the change-stream fetch
    method, for every non-empty sampled timestamp map (of `int64` values) the map
    handed to `docsyncer.Checkpoint` has exactly one entry, keyed by
    `coordinator.MongoS.ReplicaName`, whose `Oldest` is zero and whose `Newest`
    is the minimum `Newest` of the sampled entries. -/
theorem checkpoint_is_minimum_newest (v : UtilsVars) (env : Env) (conf : Options)
    (coordinator : ReplicationCoordinator) (sched : List Nat) (mongoS : MongoSource)
    (sampled : List (String × TimestampNode))
    (hmode : conf.SyncMode ≠ v.VarSyncModeFull)
    (hflag : conf.SpecialSourceDBFlag ≠ v.VarSpecialSourceDBFlagAliyunServerless)
    (hs : coordinator.MongoS = some mongoS)
    (hf : conf.IncrSyncMongoFetchMethod = v.VarIncrSyncMongoFetchMethodChangeStream)
    (hd : coordinator.MongoD ≠ [])
    (hsample : env.GetAllTimestamp coordinator.MongoD conf.MongoSslRootCaFile =
      .ok (some sampled))
    (hne : sampled ≠ []) (h64 : ∀ e ∈ sampled, inInt64 e.2.Newest)
    (m : GoMap TimestampNode)
    (he : Event.Checkpoint m ∈ (startDocumentReplication v env conf coordinator sched).1) :
    ∃ node : TimestampNode, m = some [(mongoS.ReplicaName, node)] ∧ node.Oldest = 0 ∧
      (∃ e ∈ sampled, e.2.Newest = node.Newest) ∧
      ∀ e ∈ sampled, node.Newest ≤ e.2.Newest := by
  obtain ⟨hm, _⟩ := checkpoint_of_run v env conf coordinator sched m he
  rw [sampledCkptMap_of_sample v env conf coordinator _ hmode hflag hd hsample] at hm
  refine ⟨{ Oldest := 0, Newest := smallestNew sampled }, ?_, rfl, ?_, ?_⟩
  · rw [hm]; simp [checkpointArg, hs, hf, mergedCheckpoint, GoMap.entries]
  · exact smallestNew_attained sampled hne h64
  · exact smallestNew_le sampled

/-- Witness of C1: sampled `Newest` values 100, 80 and 120 behind a mongos give
    a checkpoint of 80. -/
theorem checkpoint_is_minimum_newest_witness :
    Event.Checkpoint (some [("mongos", { Oldest := 0, Newest := 80 })]) ∈
        (startDocumentReplication utilsVars quietEnv changeStreamOptions mongosCoordinator
          [0]).1 ∧
      ∃ node : TimestampNode,
        (some [("mongos", { Oldest := 0, Newest := 80 })] : GoMap TimestampNode) =
            some [(mongos.ReplicaName, node)] ∧ node.Oldest = 0 ∧
          (∃ e ∈ threeTimestamps.entries, e.2.Newest = node.Newest) ∧
          ∀ e ∈ threeTimestamps.entries, node.Newest ≤ e.2.Newest :=
  ⟨by decide,
    checkpoint_is_minimum_newest utilsVars quietEnv changeStreamOptions mongosCoordinator [0]
      mongos threeTimestamps.entries (by decide) (by decide) rfl (by decide) (by decide) rfl
      (by decide) (by decide) _ (by decide)⟩

/-- C10. When the merge branch is taken and the sampled timestamp map is nil or
    empty (no mongod source to sample, or an empty sample), the single entry
    handed to `docsyncer.Checkpoint` has `Newest = math.MaxInt64`, and the run
    reports success when that `Checkpoint` call succeeds. -/
theorem checkpoint_of_empty_sample (v : UtilsVars) (env : Env) (conf : Options)
    (coordinator : ReplicationCoordinator) (sched : List Nat) (mongoS : MongoSource)
    (hmode : conf.SyncMode ≠ v.VarSyncModeFull)
    (hflag : conf.SpecialSourceDBFlag ≠ v.VarSpecialSourceDBFlagAliyunServerless)
    (hs : coordinator.MongoS = some mongoS)
    (hf : conf.IncrSyncMongoFetchMethod = v.VarIncrSyncMongoFetchMethodChangeStream)
    (hempty : coordinator.MongoD = [] ∨
      ∃ sampled, env.GetAllTimestamp coordinator.MongoD conf.MongoSslRootCaFile =
        .ok sampled ∧ sampled.entries = [])
    (m : GoMap TimestampNode)
    (he : Event.Checkpoint m ∈ (startDocumentReplication v env conf coordinator sched).1) :
    m = some [(mongoS.ReplicaName, { Oldest := 0, Newest := 9223372036854775807 })] ∧
      (env.Checkpoint m = none →
        (startDocumentReplication v env conf coordinator sched).2 = .ok) := by
  obtain ⟨hm, hres⟩ := checkpoint_of_run v env conf coordinator sched m he
  have hent : (sampledCkptMap v env conf coordinator).entries = [] := by
    by_cases hd : coordinator.MongoD = []
    · rw [sampledCkptMap_of_no_mongod v env conf coordinator hd]; rfl
    · rcases hempty with h | ⟨sampled, h1, h2⟩
      · exact absurd h hd
      · rw [sampledCkptMap_of_sample v env conf coordinator _ hmode hflag hd h1]; exact h2
  constructor
  · rw [hm]
    simp [checkpointArg, hs, hf, mergedCheckpoint, hent, smallestNew, MaxInt64]
  · intro hok
    rw [hres, hok]

/-- Witness of C10: a mongos source with no mongod to sample. -/
theorem checkpoint_of_empty_sample_witness :
    Event.Checkpoint
          (some [("mongos", { Oldest := 0, Newest := 9223372036854775807 })]) ∈
        (startDocumentReplication utilsVars quietEnv changeStreamOptions routerOnlyCoordinator
          [0]).1 ∧
      (startDocumentReplication utilsVars quietEnv changeStreamOptions routerOnlyCoordinator
          [0]).2 = .ok :=
  ⟨by decide,
    (checkpoint_of_empty_sample utilsVars quietEnv changeStreamOptions routerOnlyCoordinator
      [0] mongos (by decide) (by decide) rfl (by decide) (Or.inl rfl)
      (some [("mongos", { Oldest := 0, Newest := 9223372036854775807 })]) (by decide)).2 rfl⟩

/-! ## Worker failure -/

theorem parallelCopy_of_error (v : UtilsVars) (env : Env) (conf : Options)
    (coordinator : ReplicationCoordinator) (sched : List Nat)
    (shardingChunkMap : ShardingChunkMap) (fromIsSharding : Bool)
    (ckptMap : GoMap TimestampNode) (toUrl : String) (indexMap : IndexMap) (err : GoError)
    (hj : (joinWorkers env coordinator.RealSourceFullSync sched none).2 = some err) :
    parallelCopy v env conf coordinator sched shardingChunkMap fromIsSharding ckptMap toUrl
        indexMap =
      (.StartQoS conf.FullSyncReaderDocumentBatchSize ::
        (spawnWorkers conf shardingChunkMap toUrl fromIsSharding 0
            coordinator.RealSourceFullSync ++
          .FullSyncHttpListen :: (joinWorkers env coordinator.RealSourceFullSync sched none).1),
        .error err) := by
  unfold parallelCopy
  simp only [hj]

theorem foregroundIndex_kinds (v : UtilsVars) (env : Env) (conf : Options)
    (coordinator : ReplicationCoordinator) (ckptMap : GoMap TimestampNode)
    (toUrl : String) (indexMap : IndexMap) (e : Event)
    (he : e ∈ (foregroundIndex v env conf coordinator ckptMap toUrl indexMap).1) :
    e = .StartIndexSync false ∨ ∃ m, e = .Checkpoint m := by
  rcases foregroundIndex_mem _ _ _ _ _ _ _ _ he with h | ⟨h, _⟩
  · exact Or.inl h
  · exact Or.inr ⟨_, (updateCheckpoint_mem _ _ _ _ _ _ h).1⟩

/-- A failed `Start` recorded in a run makes the run return the error of a
    recorded failed `Start`, without checkpoint or foreground index creation. -/
theorem failed_start_fails_run (v : UtilsVars) (env : Env) (conf : Options)
    (coordinator : ReplicationCoordinator) (sched : List Nat)
    (hfail : ∃ i err, Event.DBSyncerStart i (some err) ∈
      (startDocumentReplication v env conf coordinator sched).1) :
    (∃ i err, Event.DBSyncerStart i (some err) ∈
        (startDocumentReplication v env conf coordinator sched).1 ∧
      (startDocumentReplication v env conf coordinator sched).2 = .error err) ∧
    (∀ m, Event.Checkpoint m ∉ (startDocumentReplication v env conf coordinator sched).1) ∧
    Event.StartIndexSync false ∉ (startDocumentReplication v env conf coordinator sched).1 := by
  obtain ⟨i, err, he⟩ := hfail
  rcases startDocumentReplication_cases v env conf coordinator sched with
    h | ⟨toUrl, indexMap, h⟩
  · exact absurd he (late_not_mem_of_stopsEarly h (Event.DBSyncerStart i (some err)) rfl)
  · have hmem := late_mem_of_reaches h (Event.DBSyncerStart i (some err)) rfl he
    have hsome : (joinWorkers env coordinator.RealSourceFullSync sched none).2.isSome = true := by
      rcases parallelCopy_mem _ _ _ _ _ _ _ _ _ _ _ hmem with h1 | h1 | h1 | h1 | ⟨_, h1, _⟩
      · cases h1
      · obtain ⟨k, src, _, h1⟩ := spawnWorkers_mem _ _ _ _ _ _ _ h1
        cases h1
      · cases h1
      · exact joinWorkers_failed _ _ _ _ _ _ h1
      · rcases foregroundIndex_kinds _ _ _ _ _ _ _ _ h1 with h2 | ⟨m, h2⟩ <;> cases h2
    obtain ⟨replError, hj⟩ := Option.isSome_iff_exists.1 hsome
    have hpc := parallelCopy_of_error v env conf coordinator sched
      (fetchedChunkMap v env conf coordinator) (SourceIsSharding v conf coordinator)
      (sampledCkptMap v env conf coordinator) toUrl indexMap replError hj
    have hnot : ∀ e : Event, Event.late e = true →
        e ∈ (startDocumentReplication v env conf coordinator sched).1 →
        (e = .StartIndexSync false ∨ ∃ m, e = .Checkpoint m) → False := by
      intro e hl hin hkind
      have h1 := late_mem_of_reaches h e hl hin
      rw [hpc] at h1
      simp only [List.mem_cons, List.mem_append] at h1
      rcases h1 with h1 | h1 | h1 | h1
      · rcases hkind with h2 | ⟨m, h2⟩ <;> rw [h2] at h1 <;> cases h1
      · obtain ⟨k, src, _, h1⟩ := spawnWorkers_mem _ _ _ _ _ _ _ h1
        rcases hkind with h2 | ⟨m, h2⟩ <;> rw [h2] at h1 <;> cases h1
      · rcases hkind with h2 | ⟨m, h2⟩ <;> rw [h2] at h1 <;> cases h1
      · rcases joinWorkers_mem _ _ _ _ _ h1 with ⟨j, r, h1⟩ | ⟨j, h1⟩ <;>
          rcases hkind with h2 | ⟨m, h2⟩ <;> rw [h2] at h1 <;> cases h1
    refine ⟨?_, ?_, ?_⟩
    · rcases joinWorkers_error_source _ _ _ _ _ hj with h1 | ⟨j, h1⟩
      · cases h1
      · refine ⟨j, replError, mem_of_reaches h _ ?_, ?_⟩
        · rw [hpc]
          exact List.mem_cons_of_mem _
            (List.mem_append_right _ (List.mem_cons_of_mem _ h1))
        · obtain ⟨_, _, _, _, _, hr⟩ := h
          rw [hr, hpc]
    · intro m hin
      exact hnot (Event.Checkpoint m) rfl hin (Or.inr ⟨m, rfl⟩)
    · intro hin
      exact hnot (Event.StartIndexSync false) rfl hin (Or.inl rfl)

theorem joinWorkers_start_mem (env : Env) (sources : List MongoSource) (sched : List Nat)
    (replError : Option GoError) (i : Nat) (src : MongoSource) (err : GoError)
    (hi : i ∈ sched) (hsrc : sources.get? i = some src)
    (hfail : env.dbSyncerStart i src = some err) :
    Event.DBSyncerStart i (some err) ∈ (joinWorkers env sources sched replError).1 := by
  induction sched generalizing replError with
  | nil => cases hi
  | cons j rest ih =>
    by_cases hj : j = i
    · subst hj
      unfold joinWorkers
      simp only [hsrc, hfail]
      exact List.mem_cons_self _ _
    · have hrest : i ∈ rest := by
        rcases List.mem_cons.1 hi with h | h
        · exact absurd h.symm hj
        · exact h
      unfold joinWorkers
      split
      · exact ih _ hrest
      · split
        · exact List.mem_cons_of_mem _ (List.mem_cons_of_mem _ (ih _ hrest))
        · exact List.mem_cons_of_mem _ (List.mem_cons_of_mem _ (ih _ hrest))

theorem joinWorkers_start_sound (env : Env) (sources : List MongoSource) (sched : List Nat)
    (replError : Option GoError) (j : Nat) (r : Option GoError)
    (he : Event.DBSyncerStart j r ∈ (joinWorkers env sources sched replError).1) :
    ∃ src, sources.get? j = some src ∧ env.dbSyncerStart j src = r := by
  induction sched generalizing replError with
  | nil => simp [joinWorkers] at he
  | cons k rest ih =>
    unfold joinWorkers at he
    split at he
    · exact ih _ he
    · rename_i src hsrc
      split at he
      · rename_i err herr
        simp only [List.mem_cons] at he
        rcases he with h | h | h
        · simp only [Event.DBSyncerStart.injEq] at h
          exact ⟨src, by rw [h.1]; exact hsrc, by rw [h.1, h.2]; exact herr⟩
        · cases h
        · exact ih _ h
      · rename_i herr
        simp only [List.mem_cons] at he
        rcases he with h | h | h
        · simp only [Event.DBSyncerStart.injEq] at h
          exact ⟨src, by rw [h.1]; exact hsrc, by rw [h.1, h.2]; exact herr⟩
        · cases h
        · exact ih _ h

theorem parallelCopy_join_mem (v : UtilsVars) (env : Env) (conf : Options)
    (coordinator : ReplicationCoordinator) (sched : List Nat)
    (shardingChunkMap : ShardingChunkMap) (fromIsSharding : Bool)
    (ckptMap : GoMap TimestampNode) (toUrl : String) (indexMap : IndexMap) (e : Event)
    (he : e ∈ (joinWorkers env coordinator.RealSourceFullSync sched none).1) :
    e ∈ (parallelCopy v env conf coordinator sched shardingChunkMap fromIsSharding ckptMap
      toUrl indexMap).1 := by
  unfold parallelCopy
  split
  · exact List.mem_cons_of_mem _ (List.mem_append_right _ (List.mem_cons_of_mem _ he))
  · simp only [after, List.cons_append, List.mem_cons, List.mem_append]
    tauto

/-- C2. Let the workers be joined in any order `sched` that covers every one of
    them, and let the `Start` of some worker return an error. Then the run never
    reports success, `docsyncer.Checkpoint` is not called and the foreground
    index creation is not called. If the copy was started at all (the shared
    QoS of line 163 was created), the failing `Start` was called and
    `startDocumentReplication` returns an error that is the error returned by
    the `Start` of one of the workers. This holds for every list of sources and
    every combination of worker outcomes. -/
theorem worker_error_fails_run (v : UtilsVars) (env : Env) (conf : Options)
    (coordinator : ReplicationCoordinator) (sched : List Nat) (i : Nat) (src : MongoSource)
    (err : GoError)
    (hcover : ∀ k, k < coordinator.RealSourceFullSync.length → k ∈ sched)
    (hsrc : coordinator.RealSourceFullSync.get? i = some src)
    (hfail : env.dbSyncerStart i src = some err) :
    (startDocumentReplication v env conf coordinator sched).2 ≠ .ok ∧
    (∀ m, Event.Checkpoint m ∉ (startDocumentReplication v env conf coordinator sched).1) ∧
    Event.StartIndexSync false ∉ (startDocumentReplication v env conf coordinator sched).1 ∧
    (Event.StartQoS conf.FullSyncReaderDocumentBatchSize ∈
        (startDocumentReplication v env conf coordinator sched).1 →
      Event.DBSyncerStart i (some err) ∈
          (startDocumentReplication v env conf coordinator sched).1 ∧
        ∃ j srcj errj, coordinator.RealSourceFullSync.get? j = some srcj ∧
          env.dbSyncerStart j srcj = some errj ∧
          Event.DBSyncerStart j (some errj) ∈
            (startDocumentReplication v env conf coordinator sched).1 ∧
          (startDocumentReplication v env conf coordinator sched).2 = .error errj) := by
  have hlt : i < coordinator.RealSourceFullSync.length := by
    obtain ⟨h, _⟩ := List.get?_eq_some.1 hsrc
    exact h
  rcases startDocumentReplication_cases v env conf coordinator sched with
    hstop | ⟨toUrl, indexMap, h⟩
  · refine ⟨hstop.2, ?_, ?_, ?_⟩
    · intro m
      exact late_not_mem_of_stopsEarly hstop (Event.Checkpoint m) rfl
    · exact late_not_mem_of_stopsEarly hstop (Event.StartIndexSync false) rfl
    · intro hq
      exact absurd hq (late_not_mem_of_stopsEarly hstop
        (Event.StartQoS conf.FullSyncReaderDocumentBatchSize) rfl)
  · have hjoin := joinWorkers_start_mem env coordinator.RealSourceFullSync sched none i src err
      (hcover i hlt) hsrc hfail
    have hin : Event.DBSyncerStart i (some err) ∈
        (startDocumentReplication v env conf coordinator sched).1 :=
      mem_of_reaches h _ (parallelCopy_join_mem _ _ _ _ _ _ _ _ _ _ _ hjoin)
    obtain ⟨⟨j, errj, hj, hres⟩, hck, hidx⟩ :=
      failed_start_fails_run v env conf coordinator sched ⟨i, err, hin⟩
    refine ⟨by rw [hres]; simp, hck, hidx, fun _ => ⟨hin, ?_⟩⟩
    have hj1 := late_mem_of_reaches h (Event.DBSyncerStart j (some errj)) rfl hj
    have hj2 : Event.DBSyncerStart j (some errj) ∈
        (joinWorkers env coordinator.RealSourceFullSync sched none).1 := by
      rcases parallelCopy_mem _ _ _ _ _ _ _ _ _ _ _ hj1 with h1 | h1 | h1 | h1 | ⟨_, h1, _⟩
      · cases h1
      · obtain ⟨k, src1, _, h1⟩ := spawnWorkers_mem _ _ _ _ _ _ _ h1
        cases h1
      · cases h1
      · exact h1
      · rcases foregroundIndex_kinds _ _ _ _ _ _ _ _ h1 with h2 | ⟨m, h2⟩ <;> cases h2
    obtain ⟨srcj, hsj, hej⟩ := joinWorkers_start_sound _ _ _ _ _ _ hj2
    exact ⟨j, srcj, errj, hsj, hej, hj, hres⟩

/-- Witness of C2: of two workers the second fails and finishes first; the run
    returns its error. -/
theorem worker_error_fails_run_witness :
    (startDocumentReplication utilsVars secondWorkerFailsEnv oplogOptions directCoordinator
        [1, 0]).2 = .error "copy failed" ∧
    Event.StartQoS 128 ∈
      (startDocumentReplication utilsVars secondWorkerFailsEnv oplogOptions directCoordinator
        [1, 0]).1 ∧
    ((startDocumentReplication utilsVars secondWorkerFailsEnv oplogOptions directCoordinator
        [1, 0]).2 ≠ .ok ∧
    (∀ m, Event.Checkpoint m ∉
      (startDocumentReplication utilsVars secondWorkerFailsEnv oplogOptions directCoordinator
        [1, 0]).1) ∧
    Event.StartIndexSync false ∉
      (startDocumentReplication utilsVars secondWorkerFailsEnv oplogOptions directCoordinator
        [1, 0]).1 ∧
    (Event.StartQoS oplogOptions.FullSyncReaderDocumentBatchSize ∈
        (startDocumentReplication utilsVars secondWorkerFailsEnv oplogOptions
          directCoordinator [1, 0]).1 →
      Event.DBSyncerStart 1 (some "copy failed") ∈
          (startDocumentReplication utilsVars secondWorkerFailsEnv oplogOptions
            directCoordinator [1, 0]).1 ∧
        ∃ j srcj errj, directCoordinator.RealSourceFullSync.get? j = some srcj ∧
          secondWorkerFailsEnv.dbSyncerStart j srcj = some errj ∧
          Event.DBSyncerStart j (some errj) ∈
            (startDocumentReplication utilsVars secondWorkerFailsEnv oplogOptions
              directCoordinator [1, 0]).1 ∧
          (startDocumentReplication utilsVars secondWorkerFailsEnv oplogOptions
            directCoordinator [1, 0]).2 = .error errj)) :=
  ⟨by decide, by decide,
    worker_error_fails_run utilsVars secondWorkerFailsEnv oplogOptions directCoordinator [1, 0]
      1 shard2 "copy failed" (by decide) rfl rfl⟩

/-! ## Orphan filters -/

theorem orphanFilterFor_isSome (conf : Options) (shardingChunkMap : ShardingChunkMap)
    (src : MongoSource) :
    (orphanFilterFor conf shardingChunkMap src).isSome = true ↔
      (conf.FullSyncExecutorFilterOrphanDocument = true ∧ shardingChunkMap ≠ none) := by
  unfold orphanFilterFor
  cases hf : conf.FullSyncExecutorFilterOrphanDocument
  · simp
  · cases shardingChunkMap with
    | none => simp
    | some l => simp only [Option.isSome_some, Bool.and_self, if_true]; split <;> simp

theorem orphanFilterFor_eq (conf : Options) (shardingChunkMap : ShardingChunkMap)
    (src : MongoSource) (f : OrphanFilter)
    (h : orphanFilterFor conf shardingChunkMap src = some f) :
    f = NewOrphanFilter src.ReplicaName
      (match shardingChunkMap.lookup src.ReplicaName with
        | some chunkMap => chunkMap
        | none => some []) := by
  unfold orphanFilterFor at h
  split at h
  · split at h <;> simp only [Option.some.injEq] at h <;> rw [← h]
  · cases h

theorem orphanFilterFor_congr (conf : Options) (m1 m2 : ShardingChunkMap)
    (src : MongoSource) (h1 : m2.isSome = m1.isSome)
    (h2 : m2.lookup src.ReplicaName = m1.lookup src.ReplicaName) :
    orphanFilterFor conf m1 src = orphanFilterFor conf m2 src := by
  unfold orphanFilterFor
  rw [h1, h2]

/-- C7. Every copy worker created by `startDocumentReplication` belongs to the
    source at its index in `RealSourceFullSync`. It receives an orphan filter if
    and only if orphan filtering is enabled and the fetched chunk map is not
    nil. A filter that is built holds exactly the chunk-map entry stored under
    the source's own `ReplicaName`, or an empty per-namespace map when there is
    no such entry; it is the same for every chunk map that agrees on that one
    entry, so no range stored under another shard's name enters it. -/
theorem worker_orphan_filter (v : UtilsVars) (env : Env) (conf : Options)
    (coordinator : ReplicationCoordinator) (sched : List Nat) (id : Nat)
    (url replicaName toUrl : String) (orphanFilter : Option OrphanFilter)
    (fromIsSharding : Bool)
    (he : Event.NewDBSyncer id url replicaName toUrl orphanFilter fromIsSharding ∈
      (startDocumentReplication v env conf coordinator sched).1) :
    ∃ src, coordinator.RealSourceFullSync.get? id = some src ∧ url = src.URL ∧
      replicaName = src.ReplicaName ∧
      (orphanFilter.isSome = true ↔
        (conf.FullSyncExecutorFilterOrphanDocument = true ∧
          fetchedChunkMap v env conf coordinator ≠ none)) ∧
      (∀ f, orphanFilter = some f →
        f = NewOrphanFilter src.ReplicaName
          (match (fetchedChunkMap v env conf coordinator).lookup src.ReplicaName with
            | some chunkMap => chunkMap
            | none => some [])) ∧
      (∀ other : ShardingChunkMap,
        other.isSome = (fetchedChunkMap v env conf coordinator).isSome →
        other.lookup src.ReplicaName =
          (fetchedChunkMap v env conf coordinator).lookup src.ReplicaName →
        orphanFilter = orphanFilterFor conf other src) := by
  obtain ⟨toUrl1, indexMap, hmem, _⟩ := late_event_of_run v env conf coordinator sched
    (Event.NewDBSyncer id url replicaName toUrl orphanFilter fromIsSharding) rfl he
  have hspawn : Event.NewDBSyncer id url replicaName toUrl orphanFilter fromIsSharding ∈
      spawnWorkers conf (fetchedChunkMap v env conf coordinator) toUrl1
        (SourceIsSharding v conf coordinator) 0 coordinator.RealSourceFullSync := by
    rcases parallelCopy_mem _ _ _ _ _ _ _ _ _ _ _ hmem with h1 | h1 | h1 | h1 | ⟨_, h1, _⟩
    · cases h1
    · exact h1
    · cases h1
    · rcases joinWorkers_mem _ _ _ _ _ h1 with ⟨j, r, h1⟩ | ⟨j, h1⟩ <;> cases h1
    · rcases foregroundIndex_kinds _ _ _ _ _ _ _ _ h1 with h2 | ⟨m, h2⟩ <;> cases h2
  obtain ⟨k, src, hk, hev⟩ := spawnWorkers_mem _ _ _ _ _ _ _ hspawn
  simp only [Event.NewDBSyncer.injEq, Nat.zero_add] at hev
  obtain ⟨hid, hurl, hname, _, hfilter, _⟩ := hev
  refine ⟨src, by rw [hid]; exact hk, hurl, hname, ?_, ?_, ?_⟩
  · rw [hfilter]; exact orphanFilterFor_isSome _ _ _
  · intro f hf
    rw [hfilter] at hf
    exact orphanFilterFor_eq _ _ _ _ hf
  · intro other h1 h2
    rw [hfilter]
    exact orphanFilterFor_congr _ _ _ _ h1 h2

/-- Witness of C7: two shards copied directly with orphan filtering; the worker
    of `S1` holds the ranges stored under `S1` only. -/
theorem worker_orphan_filter_witness :
    Event.NewDBSyncer 0 "mongodb://s1" "S1" "mongodb://target" (some shard1Filter) true ∈
        (startDocumentReplication utilsVars quietEnv oplogOptions directCoordinator [0, 1]).1 ∧
      ∃ src, directCoordinator.RealSourceFullSync.get? 0 = some src ∧
        "mongodb://s1" = src.URL ∧ "S1" = src.ReplicaName ∧
        ((some shard1Filter).isSome = true ↔
          (oplogOptions.FullSyncExecutorFilterOrphanDocument = true ∧
            fetchedChunkMap utilsVars quietEnv oplogOptions directCoordinator ≠ none)) ∧
        (∀ f, some shard1Filter = some f →
          f = NewOrphanFilter src.ReplicaName
            (match (fetchedChunkMap utilsVars quietEnv oplogOptions directCoordinator).lookup
                src.ReplicaName with
              | some chunkMap => chunkMap
              | none => some [])) ∧
        (∀ other : ShardingChunkMap,
          other.isSome =
            (fetchedChunkMap utilsVars quietEnv oplogOptions directCoordinator).isSome →
          other.lookup src.ReplicaName =
            (fetchedChunkMap utilsVars quietEnv oplogOptions directCoordinator).lookup
              src.ReplicaName →
          some shard1Filter = orphanFilterFor oplogOptions other src) :=
  ⟨by decide,
    worker_orphan_filter utilsVars quietEnv oplogOptions directCoordinator [0, 1] 0
      "mongodb://s1" "S1" "mongodb://target" (some shard1Filter) true (by decide)⟩

/-! ## The balancer gate -/

/-- C4. For a sharded source copied directly off its shards (`SourceIsSharding()`
    is true and `coordinator.MongoS` is nil) the first call of
    `startDocumentReplication` is the balancer query, and when that query fails
    or reports the balancer active the function returns an error with no other
    call made: no namespace is resolved, no timestamp sampled, no target
    collection dropped, no worker created, and `Checkpoint` is not called. -/
theorem balancer_gate (v : UtilsVars) (env : Env) (conf : Options)
    (coordinator : ReplicationCoordinator) (sched : List Nat)
    (hs : SourceIsSharding v conf coordinator = true) (hm : coordinator.MongoS = none) :
    (startDocumentReplication v env conf coordinator sched).1.head? =
        some (.GetBalancerStatusByUrl conf.MongoCsUrl) ∧
      (((∃ err, env.GetBalancerStatusByUrl conf.MongoCsUrl = .error err) ∨
          env.GetBalancerStatusByUrl conf.MongoCsUrl = .ok true) →
        (startDocumentReplication v env conf coordinator sched).1 =
            [.GetBalancerStatusByUrl conf.MongoCsUrl] ∧
          ∃ err, (startDocumentReplication v env conf coordinator sched).2 = .error err) := by
  have hf := fetch_method_of_direct_sharding v conf coordinator hs hm
  have hcond : (SourceIsSharding v conf coordinator && coordinator.MongoS.isNone) = true := by
    simp [hs, hm]
  unfold startDocumentReplication
  rw [if_pos hcond, hs]
  cases hb : env.GetBalancerStatusByUrl conf.MongoCsUrl with
  | error e => simp [fetchChunkMap, hf, hb]
  | ok b =>
    cases b with
    | true => simp [fetchChunkMap, hf, hb]
    | false =>
      cases ho : conf.FullSyncExecutorFilterOrphanDocument with
      | false => simp [fetchChunkMap, hf, hb, ho, after]
      | true =>
        cases hc : env.GetChunkMapByUrl conf.MongoCsUrl with
        | error e => simp [fetchChunkMap, hf, hb, ho, hc]
        | ok m => simp [fetchChunkMap, hf, hb, ho, hc, after]

/-- Witness of C4: two shards copied directly while the balancer runs. -/
theorem balancer_gate_witness :
    (startDocumentReplication utilsVars balancerActiveEnv oplogOptions directCoordinator
        [0, 1]).1 = [.GetBalancerStatusByUrl "mongodb://cs"] ∧
      ∃ err, (startDocumentReplication utilsVars balancerActiveEnv oplogOptions
        directCoordinator [0, 1]).2 = .error err :=
  (balancer_gate utilsVars balancerActiveEnv oplogOptions directCoordinator [0, 1]
    (by decide) rfl).2 (Or.inr rfl)

/-! ## The extra-job registry -/

theorem filter_jobs_set_get (P : extraJob → Bool) (reg : JobRegistry) (interval : Int)
    (job : extraJob) :
    (((JobRegistry.set reg interval (reg.get interval ++ [job])).map
        (fun kv => kv.2)).flatten.filter P).length =
      ((reg.map (fun kv => kv.2)).flatten.filter P).length + (if P job then 1 else 0) := by
  induction reg with
  | nil =>
    simp only [JobRegistry.set, JobRegistry.get, List.lookup, List.nil_append, List.map_cons,
      List.map_nil, List.flatten_cons, List.flatten_nil, List.append_nil, List.filter_nil,
      List.length_nil, Nat.zero_add]
    by_cases hp : P job = true <;> simp [List.filter, hp]
  | cons x rest ih =>
    obtain ⟨k, old⟩ := x
    by_cases hk : k = interval
    · subst hk
      simp only [JobRegistry.set, JobRegistry.get, List.lookup, beq_self_eq_true, if_true,
        List.map_cons, List.flatten_cons, List.filter_append, List.length_append]
      by_cases hp : P job = true
      · simp [List.filter, hp]; omega
      · simp [List.filter, hp]
    · have hk1 : (k == interval) = false := by simpa using hk
      have hk2 : (interval == k) = false := by simpa using fun h : interval = k => hk h.symm
      have hget : JobRegistry.get ((k, old) :: rest) interval = JobRegistry.get rest interval := by
        simp [JobRegistry.get, List.lookup, hk2]
      rw [hget]
      simp only [JobRegistry.set, hk1, List.map_cons, List.flatten_cons, List.filter_append,
        List.length_append, Bool.false_eq_true, if_false]
      rw [ih]
      omega

theorem instancesOf_AddExtraJob (name : String) (interval : Int) (input : List GoValue)
    (reg reg1 : JobRegistry) (n : String) (k : Int)
    (h : AddExtraJob name interval input reg = some reg1) :
    instancesOf reg1 n k =
      instancesOf reg n k +
        (if RegistryCall.registers n k (.add name interval input) then 1 else 0) := by
  unfold AddExtraJob at h
  split at h
  · rename_i hname
    have hname1 : name = NameCheckUniqueIndexExistsJob := by simpa using hname
    split at h
    · rename_i collections urls tl
      simp only [Option.some.injEq] at h
      rw [← h]
      unfold instancesOf
      rw [filter_jobs_set_get]
      simp [RegistryCall.registers, extraJob.Name, extraJob.interval,
        NewCheckUniqueIndexExistsJob, hname1]
    · cases h
  · rename_i hname
    have hname1 : ¬ name = NameCheckUniqueIndexExistsJob := by simpa using hname
    simp only [Option.some.injEq] at h
    rw [← h]
    simp [RegistryCall.registers, hname1]

theorem instancesOf_apply (c : RegistryCall) (reg reg1 : JobRegistry) (n : String) (k : Int)
    (h : c.apply reg = some reg1) :
    instancesOf reg1 n k =
      instancesOf reg n k + (if RegistryCall.registers n k c then 1 else 0) := by
  cases c with
  | add name interval input => exact instancesOf_AddExtraJob _ _ _ _ _ _ _ h
  | run conf sources =>
    simp only [RegistryCall.apply, RunExtraJob] at h
    split at h
    · rename_i hlen
      split at h
      · cases h
      · rename_i reg2 hadd
        simp only [Option.map_some', Option.some.injEq] at h
        rw [← h, instancesOf_AddExtraJob _ _ _ _ _ n k hadd]
        simp only [RegistryCall.registers, hlen, Bool.true_and, beq_self_eq_true]
        have : ((10 : Int) == k) = (k == 10) := by
          by_cases hk : k = 10 <;> simp [hk, eq_comm]
        rw [this]
    · rename_i hlen
      simp only [Option.map_some', Option.some.injEq] at h
      rw [← h]
      simp [RegistryCall.registers, hlen]

theorem instancesOf_runCalls (calls : List RegistryCall) (reg reg1 : JobRegistry)
    (n : String) (k : Int) (h : runCalls reg calls = some reg1) :
    instancesOf reg1 n k =
      instancesOf reg n k + (calls.filter (RegistryCall.registers n k)).length := by
  induction calls generalizing reg with
  | nil =>
    simp only [runCalls, Option.some.injEq] at h
    simp [h]
  | cons c rest ih =>
    unfold runCalls at h
    split at h
    · cases h
    · rename_i reg2 hc
      rw [ih reg2 h, instancesOf_apply c reg reg2 n k hc]
      by_cases hr : RegistryCall.registers n k c = true
      · simp [List.filter, hr]; omega
      · simp [List.filter, hr]

/-- C8, as stated, fails: two `AddExtraJob` calls with the same name and
    interval leave two instances for that pair, and so do two `RunExtraJob`
    calls with a non-empty object-id whitelist. -/
theorem registry_keeps_duplicates :
    (runCalls [] [.add NameCheckUniqueIndexExistsJob 10 jobInput,
          .add NameCheckUniqueIndexExistsJob 10 jobInput]).map
        (fun reg => instancesOf reg NameCheckUniqueIndexExistsJob 10) = some 2 ∧
      (runCalls [] [.run whitelistOptions [shard1], .run whitelistOptions [shard1]]).map
        (fun reg => instancesOf reg NameCheckUniqueIndexExistsJob 10) = some 2 := by
  decide

/-- C8, amended: in every state reached from the empty registry by `AddExtraJob`
    and `RunExtraJob` calls, the number of job instances held for a pair
    `(name, interval)` is the number of calls that registered that pair (an
    `AddExtraJob` with that known name and interval, or a `RunExtraJob` with a
    non-empty whitelist for `CheckIndexExistsJob` at interval 10); it is at most
    one when at most one call registered the pair. -/
theorem registry_instances_count (calls : List RegistryCall) (reg : JobRegistry)
    (name : String) (interval : Int) (h : runCalls [] calls = some reg) :
    instancesOf reg name interval =
        (calls.filter (RegistryCall.registers name interval)).length ∧
      ((calls.filter (RegistryCall.registers name interval)).length ≤ 1 →
        instancesOf reg name interval ≤ 1) := by
  have hcount := instancesOf_runCalls calls [] reg name interval h
  have hzero : instancesOf [] name interval = 0 := rfl
  rw [hzero, Nat.zero_add] at hcount
  exact ⟨hcount, fun hle => hcount ▸ hle⟩

/-- Witness of C8: one registration gives one instance. -/
theorem registry_instances_count_witness :
    instancesOf [(10, [.checkUniqueIndexExists oneShardJob])]
        NameCheckUniqueIndexExistsJob 10 = 1 ∧
      instancesOf [(10, [.checkUniqueIndexExists oneShardJob])]
        NameCheckUniqueIndexExistsJob 10 ≤ 1 :=
  ⟨(registry_instances_count [.add NameCheckUniqueIndexExistsJob 10 jobInput]
      [(10, [.checkUniqueIndexExists oneShardJob])] NameCheckUniqueIndexExistsJob 10
      (by decide)).1,
    (registry_instances_count [.add NameCheckUniqueIndexExistsJob 10 jobInput]
      [(10, [.checkUniqueIndexExists oneShardJob])] NameCheckUniqueIndexExistsJob 10
      (by decide)).2 (by decide)⟩

/-! ## The unique-index check -/

theorem hasPrefix_quoted (escape : String → String) (s : String) :
    HasPrefix (RawValue_String escape (.str s)) "_id" = false := by
  simp [HasPrefix, RawValue_String, String.toList, List.isPrefixOf]

theorem checkIndex_unique_true (escape : String → String) (current : Raw) (s : String)
    (hn : current.LookupErr "name" = some (.str s))
    (hu : current.LookupErr "unique" = some (.boolean true)) :
    checkIndex escape current = .unique := by
  simp [checkIndex, hn, hu, hasPrefix_quoted, RawValue_Boolean]

theorem checkIndex_not_unique (escape : String → String) (current : Raw)
    (hu : current.LookupErr "unique" = none ∨
      current.LookupErr "unique" = some (.boolean false)) :
    checkIndex escape current = .pass := by
  unfold checkIndex
  rcases hu with hu | hu
  · rw [hu]; cases current.LookupErr "name" <;> rfl
  · rw [hu]
    cases hn : current.LookupErr "name" with
    | none => rfl
    | some name => simp only [RawValue_Boolean]; split <;> simp

theorem scanCursor_passed (jenv : JobEnv) (source : MongoSource) (ns : NS)
    (pre rest : List Raw) (h : ∀ d ∈ pre, checkIndex jenv.escape d = .pass) :
    scanCursor jenv source ns (pre ++ rest) = scanCursor jenv source ns rest := by
  induction pre with
  | nil => rfl
  | cons d tl ih =>
    have hd := h d (List.mem_cons_self _ _)
    simp only [List.cons_append, scanCursor, hd]
    exact ih (fun x hx => h x (List.mem_cons_of_mem _ hx))

/-- C5, evaluated on the code: a descriptor named `email_1` with `unique: true`
    makes `innerRun` return an error and `Run` abort the process, and so does a
    descriptor named `_id_` with `unique: true`, because `name.String()` is the
    quoted text, which never starts with `_id`. -/
theorem id_index_with_unique_flag_reported :
    (∀ escape, checkIndex escape emailIndex = .unique) ∧
      (∀ escape, checkIndex escape idIndex = .unique) ∧
      (∃ err, innerRun utilsVars quietJobEnv oplogOptions oneShardJob
        [fun _ _ => some [emailIndex]] = .returned (some err)) ∧
      (∃ err, innerRun utilsVars quietJobEnv oplogOptions oneShardJob
        [fun _ _ => some [idIndex]] = .returned (some err)) ∧
      (∃ msg, Run utilsVars quietJobEnv oplogOptions oneShardJob
        [fun _ _ => some [idIndex]] = .crashed msg) :=
  ⟨fun escape => checkIndex_unique_true escape emailIndex "email_1" rfl rfl,
    fun escape => checkIndex_unique_true escape idIndex "_id_" rfl rfl,
    ⟨_, rfl⟩, ⟨_, rfl⟩, ⟨_, rfl⟩⟩

/-! ## Lifting the check through the loops of innerRun -/

theorem scanCursor_remove (jenv : JobEnv) (source : MongoSource) (ns : NS)
    (pre post : List Raw) (current : Raw) (h : checkIndex jenv.escape current = .pass) :
    scanCursor jenv source ns (pre ++ current :: post) =
      scanCursor jenv source ns (pre ++ post) := by
  induction pre with
  | nil => simp [scanCursor, h]
  | cons d tl ih =>
    simp only [List.cons_append, scanCursor]
    split
    · exact ih
    · rfl
    · rfl

theorem scanNamespaces_append (jenv : JobEnv) (listing : Listing) (i : Nat)
    (source : MongoSource) (a b : List NS)
    (h : scanNamespaces jenv listing i source a = .ticking) :
    scanNamespaces jenv listing i source (a ++ b) = scanNamespaces jenv listing i source b := by
  induction a with
  | nil => rfl
  | cons ns rest ih =>
    rw [List.cons_append, scanNamespaces]
    rw [scanNamespaces] at h
    cases hl : listing i ns with
    | none => rw [hl] at h; cases h
    | some docs =>
      rw [hl] at h
      simp only at h ⊢
      cases hs : scanCursor jenv source ns docs with
      | ticking => rw [hs] at h; exact ih h
      | panic => rw [hs] at h; cases h
      | returned e => rw [hs] at h; cases h

theorem scanSources_append (jenv : JobEnv) (listing : Listing) (nsList : List NS)
    (i : Nat) (a b : List MongoSource)
    (h : scanSources jenv listing nsList i a = .ticking) :
    scanSources jenv listing nsList i (a ++ b) =
      scanSources jenv listing nsList (i + a.length) b := by
  induction a generalizing i with
  | nil => rfl
  | cons source rest ih =>
    rw [List.cons_append, List.length_cons, scanSources]
    rw [scanSources] at h
    cases hs : scanNamespaces jenv listing i source nsList with
    | ticking =>
      rw [hs] at h
      simp only at h ⊢
      rw [ih (i + 1) h]
      have hidx : i + 1 + rest.length = i + (rest.length + 1) := by omega
      rw [hidx]
    | panic => rw [hs] at h; cases h
    | returned e => rw [hs] at h; cases h

theorem tickLoop_append (jenv : JobEnv) (cui : CheckUniqueIndexExistsJob) (nsList : List NS)
    (before rest : List Listing)
    (h : ∀ l ∈ before, scanSources jenv l nsList 0 cui.urls = .ticking) :
    tickLoop jenv cui nsList (before ++ rest) = tickLoop jenv cui nsList rest := by
  induction before with
  | nil => rfl
  | cons l tl ih =>
    rw [List.cons_append, tickLoop, h l (List.mem_cons_self _ _)]
    exact ih (fun x hx => h x (List.mem_cons_of_mem _ hx))

/-- A result that is not a silent return: still ticking, a panic, or an
    error. -/
theorem scanCursor_result (jenv : JobEnv) (source : MongoSource) (ns : NS) (docs : List Raw) :
    scanCursor jenv source ns docs = .ticking ∨ scanCursor jenv source ns docs = .panic ∨
      ∃ e, scanCursor jenv source ns docs = .returned (some e) := by
  induction docs with
  | nil => left; rfl
  | cons d tl ih =>
    unfold scanCursor
    split
    · exact ih
    · right; right; exact ⟨_, rfl⟩
    · right; left; rfl

theorem scanNamespaces_result (jenv : JobEnv) (listing : Listing) (i : Nat)
    (source : MongoSource) (nsList : List NS) :
    scanNamespaces jenv listing i source nsList = .ticking ∨
      scanNamespaces jenv listing i source nsList = .panic ∨
      ∃ e, scanNamespaces jenv listing i source nsList = .returned (some e) := by
  induction nsList with
  | nil => left; rfl
  | cons ns rest ih =>
    unfold scanNamespaces
    split
    · right; left; rfl
    · rename_i docs hl
      rcases scanCursor_result jenv source ns docs with hs | hs | ⟨e, hs⟩
      · rw [hs]; exact ih
      · rw [hs]; right; left; rfl
      · rw [hs]; right; right; exact ⟨e, rfl⟩

theorem scanSources_result (jenv : JobEnv) (listing : Listing) (nsList : List NS) (i : Nat)
    (urls : List MongoSource) :
    scanSources jenv listing nsList i urls = .ticking ∨
      scanSources jenv listing nsList i urls = .panic ∨
      ∃ e, scanSources jenv listing nsList i urls = .returned (some e) := by
  induction urls generalizing i with
  | nil => left; rfl
  | cons source rest ih =>
    unfold scanSources
    rcases scanNamespaces_result jenv listing i source nsList with hs | hs | ⟨e, hs⟩
    · rw [hs]; exact ih (i + 1)
    · rw [hs]; right; left; rfl
    · rw [hs]; right; right; exact ⟨e, rfl⟩

theorem tickLoop_result (jenv : JobEnv) (cui : CheckUniqueIndexExistsJob) (nsList : List NS)
    (ticks : List Listing) :
    tickLoop jenv cui nsList ticks = .ticking ∨ tickLoop jenv cui nsList ticks = .panic ∨
      ∃ e, tickLoop jenv cui nsList ticks = .returned (some e) := by
  induction ticks with
  | nil => left; rfl
  | cons l rest ih =>
    unfold tickLoop
    rcases scanSources_result jenv l nsList 0 cui.urls with hs | hs | ⟨e, hs⟩
    · rw [hs]; exact ih
    · rw [hs]; right; left; rfl
    · rw [hs]; right; right; exact ⟨e, rfl⟩

theorem scanCursor_found (jenv : JobEnv) (source : MongoSource) (ns : NS) (docs : List Raw)
    (current : Raw) (hmem : current ∈ docs) (h : checkIndex jenv.escape current = .unique) :
    scanCursor jenv source ns docs ≠ .ticking := by
  induction docs with
  | nil => cases hmem
  | cons d tl ih =>
    unfold scanCursor
    rcases List.mem_cons.1 hmem with hd | hd
    · subst hd
      rw [h]
      simp
    · split
      · exact ih hd
      · simp
      · simp

theorem scanNamespaces_found (jenv : JobEnv) (listing : Listing) (i : Nat)
    (source : MongoSource) (nsList : List NS) (ns : NS) (docs : List Raw)
    (hmem : ns ∈ nsList) (hl : listing i ns = some docs)
    (h : scanCursor jenv source ns docs ≠ .ticking) :
    scanNamespaces jenv listing i source nsList ≠ .ticking := by
  induction nsList with
  | nil => cases hmem
  | cons n rest ih =>
    unfold scanNamespaces
    rcases List.mem_cons.1 hmem with hn | hn
    · subst hn
      rw [hl]
      simp only
      cases hs : scanCursor jenv source ns docs with
      | ticking => exact absurd hs h
      | panic => simp
      | returned e => simp
    · split
      · simp
      · rename_i docs1 hl1
        cases hs : scanCursor jenv source n docs1 with
        | ticking => exact ih hn
        | panic => simp
        | returned e => simp

theorem scanSources_found (jenv : JobEnv) (listing : Listing) (nsList : List NS) (i k : Nat)
    (urls : List MongoSource) (source : MongoSource) (hk : urls.get? k = some source)
    (h : scanNamespaces jenv listing (i + k) source nsList ≠ .ticking) :
    scanSources jenv listing nsList i urls ≠ .ticking := by
  induction urls generalizing i k with
  | nil => simp at hk
  | cons s rest ih =>
    unfold scanSources
    cases k with
    | zero =>
      simp only [List.get?_cons_zero, Option.some.injEq] at hk
      subst hk
      simp only [Nat.add_zero] at h
      cases hs : scanNamespaces jenv listing i s nsList with
      | ticking => exact absurd hs h
      | panic => simp
      | returned e => simp
    | succ k1 =>
      simp only [List.get?_cons_succ] at hk
      cases hs : scanNamespaces jenv listing i s nsList with
      | ticking =>
        simp only
        apply ih (i + 1) k1 hk
        have : i + 1 + k1 = i + (k1 + 1) := by omega
        rw [this]; exact h
      | panic => simp
      | returned e => simp

theorem tickLoop_found (jenv : JobEnv) (cui : CheckUniqueIndexExistsJob) (nsList : List NS)
    (ticks : List Listing) (listing : Listing) (hmem : listing ∈ ticks)
    (h : scanSources jenv listing nsList 0 cui.urls ≠ .ticking) :
    tickLoop jenv cui nsList ticks ≠ .ticking := by
  induction ticks with
  | nil => cases hmem
  | cons l rest ih =>
    unfold tickLoop
    rcases List.mem_cons.1 hmem with hl | hl
    · subst hl
      cases hs : scanSources jenv listing nsList 0 cui.urls with
      | ticking => exact absurd hs h
      | panic => simp
      | returned e => simp
    · cases hs : scanSources jenv l nsList 0 cui.urls with
      | ticking => exact ih hl
      | panic => simp
      | returned e => simp

theorem scanNamespaces_congr (jenv : JobEnv) (l1 l2 : Listing) (i : Nat)
    (source : MongoSource) (nsList : List NS)
    (h : ∀ ns, (l1 i ns).map (scanCursor jenv source ns) =
      (l2 i ns).map (scanCursor jenv source ns)) :
    scanNamespaces jenv l1 i source nsList = scanNamespaces jenv l2 i source nsList := by
  induction nsList with
  | nil => rfl
  | cons ns rest ih =>
    have hns := h ns
    unfold scanNamespaces
    cases h1 : l1 i ns with
    | none =>
      cases h2 : l2 i ns with
      | none => rfl
      | some d2 => rw [h1, h2] at hns; cases hns
    | some d1 =>
      cases h2 : l2 i ns with
      | none => rw [h1, h2] at hns; cases hns
      | some d2 =>
        rw [h1, h2] at hns
        simp only [Option.map_some', Option.some.injEq] at hns
        simp only [hns, ih]

theorem scanSources_congr (jenv : JobEnv) (l1 l2 : Listing) (nsList : List NS) (i : Nat)
    (urls : List MongoSource)
    (h : ∀ k source ns, (l1 k ns).map (scanCursor jenv source ns) =
      (l2 k ns).map (scanCursor jenv source ns)) :
    scanSources jenv l1 nsList i urls = scanSources jenv l2 nsList i urls := by
  induction urls generalizing i with
  | nil => rfl
  | cons source rest ih =>
    unfold scanSources
    rw [scanNamespaces_congr jenv l1 l2 i source nsList (fun ns => h i source ns), ih (i + 1)]

theorem tickLoop_congr (jenv : JobEnv) (cui : CheckUniqueIndexExistsJob) (nsList : List NS)
    (before after : List Listing) (l1 l2 : Listing)
    (h : scanSources jenv l1 nsList 0 cui.urls = scanSources jenv l2 nsList 0 cui.urls) :
    tickLoop jenv cui nsList (before ++ l1 :: after) =
      tickLoop jenv cui nsList (before ++ l2 :: after) := by
  induction before with
  | nil => rw [List.nil_append, List.nil_append, tickLoop, tickLoop, h]
  | cons l tl ih => rw [List.cons_append, List.cons_append, tickLoop, tickLoop, ih]

/-- C6. Take any job, any sequence of ticks, and a descriptor `current` at any
    position of the index listing of any source `i` and namespace `ns` during
    any of the ticks, the sources being connected and the ticker period
    positive.
    If `current` has `unique = true` and a name other than `_id_` (names that
    merely begin with `_id` included), the check reports it; `innerRun` does not
    outlive that tick: it ends in an error or a panic; and when nothing before
    `current` ended the run (earlier ticks, earlier sources and namespaces of
    the tick, earlier descriptors of the listing), `innerRun` returns the error
    built at that descriptor.
    If `current` lacks a `unique` field or has `unique = false`, it passes, and
    `innerRun` ends exactly as it does with `current` taken out of the
    listing. -/
theorem unique_index_check (v : UtilsVars) (jenv : JobEnv) (conf : Options)
    (cui : CheckUniqueIndexExistsJob) (ticksBefore ticksAfter : List Listing)
    (listing : Listing) (i : Nat) (source : MongoSource) (ns : NS) (pre post : List Raw)
    (current : Raw)
    (hconn : connectAll v jenv conf cui.urls = true)
    (hperiod : 0 < tickerPeriod cui.interval)
    (hsource : cui.urls.get? i = some source)
    (hns : ns ∈ cui.collections.map jenv.NewNS)
    (hlist : listing i ns = some (pre ++ current :: post)) :
    (∀ s, current.LookupErr "name" = some (.str s) → s ≠ "_id_" →
      current.LookupErr "unique" = some (.boolean true) →
        checkIndex jenv.escape current = .unique ∧
        (innerRun v jenv conf cui (ticksBefore ++ listing :: ticksAfter) = .panic ∨
          ∃ err, innerRun v jenv conf cui (ticksBefore ++ listing :: ticksAfter) =
            .returned (some err)) ∧
        ∀ (collectionsBefore collectionsAfter : List String) (collection : String),
          cui.collections = collectionsBefore ++ collection :: collectionsAfter →
          ns = jenv.NewNS collection →
          (∀ l ∈ ticksBefore,
            scanSources jenv l (cui.collections.map jenv.NewNS) 0 cui.urls = .ticking) →
          scanSources jenv listing (cui.collections.map jenv.NewNS) 0 (cui.urls.take i) =
            .ticking →
          scanNamespaces jenv listing i source (collectionsBefore.map jenv.NewNS) = .ticking →
          (∀ d ∈ pre, checkIndex jenv.escape d = .pass) →
          innerRun v jenv conf cui (ticksBefore ++ listing :: ticksAfter) =
            .returned (some (uniqueError jenv source ns current))) ∧
    ((current.LookupErr "unique" = none ∨
        current.LookupErr "unique" = some (.boolean false)) →
      checkIndex jenv.escape current = .pass ∧
      innerRun v jenv conf cui (ticksBefore ++ listing :: ticksAfter) =
        innerRun v jenv conf cui
          (ticksBefore ++
            (fun k n => if k = i ∧ n = ns then some (pre ++ post) else listing k n) ::
            ticksAfter)) := by
  have hperiod1 : ¬ tickerPeriod cui.interval ≤ 0 := by omega
  constructor
  · intro s hn _ hu
    have hc := checkIndex_unique_true jenv.escape current s hn hu
    refine ⟨hc, ?_, ?_⟩
    · have h1 : scanCursor jenv source ns (pre ++ current :: post) ≠ .ticking :=
        scanCursor_found jenv source ns _ current (by simp) hc
      have h2 := scanNamespaces_found jenv listing i source _ ns _ hns hlist h1
      have h3 := scanSources_found jenv listing (cui.collections.map jenv.NewNS) 0 i cui.urls
        source hsource (by rw [Nat.zero_add]; exact h2)
      have h4 := tickLoop_found jenv cui (cui.collections.map jenv.NewNS)
        (ticksBefore ++ listing :: ticksAfter) listing (by simp) h3
      have hrun : innerRun v jenv conf cui (ticksBefore ++ listing :: ticksAfter) =
          tickLoop jenv cui (cui.collections.map jenv.NewNS)
            (ticksBefore ++ listing :: ticksAfter) := by
        simp [innerRun, hconn, hperiod1]
      rw [hrun]
      rcases tickLoop_result jenv cui (cui.collections.map jenv.NewNS)
          (ticksBefore ++ listing :: ticksAfter) with h5 | h5 | h5
      · exact absurd h5 h4
      · exact Or.inl h5
      · exact Or.inr h5
    · intro cBefore cAfter c hcoll hnsc hticks hsrcs hnss hpre
      have hscan : scanCursor jenv source ns (pre ++ current :: post) =
          .returned (some (uniqueError jenv source ns current)) := by
        rw [scanCursor_passed jenv source _ pre _ hpre]
        simp [scanCursor, hc]
      have hnsl : scanNamespaces jenv listing i source (cui.collections.map jenv.NewNS) =
          .returned (some (uniqueError jenv source ns current)) := by
        rw [hcoll, List.map_append, scanNamespaces_append _ _ _ _ _ _ hnss, List.map_cons,
          scanNamespaces, ← hnsc, hlist]
        simp only [hscan]
      have hlen : i < cui.urls.length := by
        obtain ⟨h, _⟩ := List.get?_eq_some.1 hsource
        exact h
      have hsplit : cui.urls = cui.urls.take i ++ source :: cui.urls.drop (i + 1) := by
        have hget : cui.urls.get ⟨i, hlen⟩ = source := by
          obtain ⟨_, h⟩ := List.get?_eq_some.1 hsource
          exact h
        rw [← hget]
        simp
      have hsl : scanSources jenv listing (cui.collections.map jenv.NewNS) 0 cui.urls =
          .returned (some (uniqueError jenv source ns current)) := by
        have htake : (cui.urls.take i).length = i := by
          rw [List.length_take]; omega
        conv_lhs => rw [hsplit]
        rw [scanSources_append _ _ _ _ _ _ hsrcs, htake, Nat.zero_add, scanSources, hnsl]
      simp only [innerRun, hconn, hperiod1, if_true, if_false]
      rw [tickLoop_append _ _ _ _ _ hticks, tickLoop, hsl]
  · intro hu
    have hc := checkIndex_not_unique jenv.escape current hu
    refine ⟨hc, ?_⟩
    simp only [innerRun, hconn, hperiod1, if_true, if_false]
    apply tickLoop_congr
    apply scanSources_congr
    intro k src n
    by_cases hk : k = i ∧ n = ns
    · obtain ⟨hk1, hk2⟩ := hk
      subst hk1 hk2
      simp only [hlist, and_self, if_true, Option.map_some', Option.some.injEq]
      exact scanCursor_remove jenv src n pre post current hc
    · simp only [hk, if_false]

/-- Witness of C6: in the second of three ticks the second shard lists
    `email_1` with `unique: true` on `db.c` after a plain index; `innerRun`
    returns the error built at that descriptor. The plain index that precedes
    it passes and can be taken out without changing the result. -/
theorem unique_index_check_witness :
    innerRun utilsVars quietJobEnv oplogOptions twoShardJob
        ([cleanListing] ++ emailListing :: [cleanListing]) =
      .returned (some (uniqueError quietJobEnv shard2 nsDbC emailIndex)) ∧
    (checkIndex quietJobEnv.escape plainIndex = .pass ∧
      innerRun utilsVars quietJobEnv oplogOptions twoShardJob
          ([cleanListing] ++ emailListing :: [cleanListing]) =
        innerRun utilsVars quietJobEnv oplogOptions twoShardJob
          ([cleanListing] ++
            (fun k n => if k = 1 ∧ n = nsDbC then some ([] ++ [emailIndex])
              else emailListing k n) :: [cleanListing])) :=
  ⟨((unique_index_check utilsVars quietJobEnv oplogOptions twoShardJob [cleanListing]
      [cleanListing] emailListing 1 shard2 nsDbC [plainIndex] [] emailIndex
      rfl (by decide) rfl (by decide) (by decide)).1
        "email_1" rfl (by decide) rfl).2.2 ["db.a"] [] "db.c" rfl (by decide) (by decide)
        (by decide) (by decide) (by decide),
    (unique_index_check utilsVars quietJobEnv oplogOptions twoShardJob [cleanListing]
      [cleanListing] emailListing 1 shard2 nsDbC [] [emailIndex] plainIndex
      rfl (by decide) rfl (by decide) (by decide)).2 (Or.inl rfl)⟩

end MongoShake
